import Mathlib

/-!
Verification development for the Bitespeed identity-reconciliation service.

The data model and the operations below are a shallow embedding of the
TypeScript source:

* `ContactService.identify`, `ContactService.needsNewSecondaryContact`,
  `ContactService.mergePrimaryContacts`, `ContactService.buildConsolidatedContact`
  (src/services/ContactService.ts), and
* the sqlite layer `Database.findContactsByEmailOrPhone`,
  `Database.findAllLinkedContacts`, `Database.createContact`,
  `Database.updateContact` (src/database/Database.ts).

Modelling conventions:

* The sqlite table is a `List Contact` in insertion (rowid) order together
  with the autoincrement counter `nextId` and the current clock `now`
  (`CURRENT_TIMESTAMP`, modelled as a `Nat`).
* JavaScript `string | undefined | null` values are `Option String`; the
  pervasive truthiness coercion `email || null` (which also sends the empty
  string to null) is `orNull`.
* `ORDER BY createdAt ASC` and `Array.prototype.sort` (stable since ES2019)
  are modelled by the stable insertion sort `sortByCreatedAt`.
* A JavaScript `Set` built from a list preserves first-occurrence insertion
  order; this is `insertOrderDedup`.
* `async`/`Promise` plumbing is dropped: each operation is a pure function
  threading the `Database` value; a thrown exception is `Except.error`, and
  the store component of the result records every write issued before the
  throw (there is no transaction in the source).
-/

inductive Precedence where
  | primary : Precedence
  | secondary : Precedence
deriving DecidableEq, Repr

/-- One row of the `contacts` table (interface `Contact` in models/Contact.ts,
columns as created by `Database.initializeDatabase`). -/
structure Contact where
  id : Nat
  email : Option String
  phoneNumber : Option String
  linkedId : Option Nat
  linkPrecedence : Precedence
  createdAt : Nat
  updatedAt : Nat
  deletedAt : Option Nat
deriving DecidableEq, Repr

/-- The body of `POST /identify` as the service receives it. -/
structure IdentifyRequest where
  email : Option String
  phoneNumber : Option String
deriving DecidableEq, Repr

/-- The consolidated view returned by `ContactService.identify`. -/
structure ConsolidatedContact where
  primaryContactId : Nat
  emails : List String
  phoneNumbers : List String
  secondaryContactIds : List Nat
deriving DecidableEq, Repr

/-- The sqlite database: rows in insertion (rowid) order, the autoincrement
counter, and the clock used for `CURRENT_TIMESTAMP`. -/
structure Database where
  contacts : List Contact
  nextId : Nat
  now : Nat
deriving DecidableEq, Repr

deriving instance DecidableEq for Except

/-- JavaScript `s || null`: `undefined`, `null` and the empty string all
collapse to `null`. -/
def orNull (s : Option String) : Option String :=
  match s with
  | some t => if t = "" then none else some t
  | none => none

/-- The list holding a truthy string, used for `if (x) { list.push(x) }`. -/
def truthyStr (s : Option String) : List String :=
  match s with
  | some t => if t = "" then [] else [t]
  | none => []

/-- Push a string unless it is already present
(`if (!list.includes(x)) list.push(x)`). -/
def pushUnique (acc : List String) (s : String) : List String :=
  if s ∈ acc then acc else acc ++ [s]

/-- Deduplicate keeping the first occurrence of each string in place. -/
def dedupKeepFirst (l : List String) : List String :=
  l.foldl pushUnique []

/-- Stable insertion of a contact into a list sorted by `createdAt`
ascending: the new element goes after every element with an equal or
smaller key. -/
def insertByCreatedAt (c : Contact) : List Contact → List Contact
  | [] => [c]
  | d :: ds => if c.createdAt < d.createdAt then c :: d :: ds else d :: insertByCreatedAt c ds

/-- Stable sort by `createdAt` ascending; models both the SQL
`ORDER BY createdAt ASC` (over rowid order) and the ES2019-stable
`Array.prototype.sort((a, b) => a.createdAt - b.createdAt)`. -/
def sortByCreatedAt (l : List Contact) : List Contact :=
  l.foldl (fun acc c => insertByCreatedAt c acc) []

/-- One step of scanning for the first contact with minimal `createdAt`:
keep the current candidate unless the next element is strictly older. -/
def pickOlder (h : Option Contact) (c : Contact) : Option Contact :=
  match h with
  | none => some c
  | some b => if c.createdAt < b.createdAt then some c else some b

/-- The first element of a list attaining the minimal `createdAt`
(equivalently the head of its stable sort by `createdAt`). -/
def firstMin (l : List Contact) : Option Contact :=
  l.foldl pickOlder none

/-- Deduplication keeping the first occurrence in insertion order, as a
JavaScript `Set` constructed from a list behaves. -/
def insertOrderDedup (l : List Nat) : List Nat :=
  l.foldl (fun acc x => if x ∈ acc then acc else acc ++ [x]) []

/-- `Database.findContactsByEmailOrPhone`: non-deleted rows whose email
equals the (truthy) email argument or whose phone equals the (truthy)
phone argument; empty result when both arguments are falsy. -/
def findContactsByEmailOrPhone (st : Database) (email phoneNumber : Option String) : List Contact :=
  let active := st.contacts.filter fun c => decide (c.deletedAt = none)
  match orNull email, orNull phoneNumber with
  | some e, some p => active.filter fun c => decide (c.email = some e ∨ c.phoneNumber = some p)
  | some e, none => active.filter fun c => decide (c.email = some e)
  | none, some p => active.filter fun c => decide (c.phoneNumber = some p)
  | none, none => []

/-- `Database.findAllLinkedContacts`: non-deleted rows with `id = primaryId`
or `linkedId = primaryId`, ordered by `createdAt` ascending. -/
def findAllLinkedContacts (st : Database) (primaryId : Nat) : List Contact :=
  sortByCreatedAt
    (st.contacts.filter fun c =>
      decide (c.deletedAt = none ∧ (c.id = primaryId ∨ c.linkedId = some primaryId)))

/-- `Database.createContact`: insert a row with a fresh autoincrement id and
`createdAt = updatedAt = CURRENT_TIMESTAMP`, returning the created contact. -/
def createContact (st : Database) (email phoneNumber : Option String)
    (linkedId : Option Nat) (linkPrecedence : Precedence) : Contact × Database :=
  let c : Contact :=
    { id := st.nextId, email := email, phoneNumber := phoneNumber, linkedId := linkedId,
      linkPrecedence := linkPrecedence, createdAt := st.now, updatedAt := st.now,
      deletedAt := none }
  (c, { st with contacts := st.contacts ++ [c], nextId := st.nextId + 1 })

/-- `Database.updateContact` for the two update shapes the service issues:
always sets `linkedId`, optionally sets `linkPrecedence`, and always stamps
`updatedAt = CURRENT_TIMESTAMP`, on every row whose id matches. -/
def updateContact (st : Database) (cid : Nat) (lid : Option Nat)
    (prec : Option Precedence) : Database :=
  { st with
    contacts := st.contacts.map fun c =>
      if c.id = cid then
        { c with linkedId := lid, linkPrecedence := prec.getD c.linkPrecedence,
                 updatedAt := st.now }
      else c }

/-- `ContactService.needsNewSecondaryContact`: no exact (email, phone) match
and the request brings a truthy email or phone not seen in the group. -/
def needsNewSecondaryContact (existingContacts : List Contact)
    (email phoneNumber : Option String) : Bool :=
  let exactMatch := existingContacts.any fun c =>
    decide (c.email = orNull email ∧ c.phoneNumber = orNull phoneNumber)
  if exactMatch then false
  else
    let hasNewEmail :=
      match orNull email with
      | some s => !(existingContacts.any fun c => decide (c.email = some s))
      | none => false
    let hasNewPhone :=
      match orNull phoneNumber with
      | some s => !(existingContacts.any fun c => decide (c.phoneNumber = some s))
      | none => false
    hasNewEmail || hasNewPhone

/-- `ContactService.buildConsolidatedContact`: sort by `createdAt`, take the
first primary (error when none), then collect unique truthy emails and
phones with the primary's first, and the secondary ids in sorted order. -/
def buildConsolidatedContact (contacts : List Contact) : Except String ConsolidatedContact :=
  let sorted := sortByCreatedAt contacts
  match sorted.find? (fun c => decide (c.linkPrecedence = Precedence.primary)) with
  | none => Except.error "No primary contact found"
  | some primary =>
    let secondaryContacts := sorted.filter fun c =>
      decide (c.linkPrecedence = Precedence.secondary)
    let emails := secondaryContacts.foldl
      (fun acc c =>
        match orNull c.email with
        | some e => pushUnique acc e
        | none => acc)
      (truthyStr primary.email)
    let phoneNumbers := secondaryContacts.foldl
      (fun acc c =>
        match orNull c.phoneNumber with
        | some p => pushUnique acc p
        | none => acc)
      (truthyStr primary.phoneNumber)
    Except.ok
      { primaryContactId := primary.id, emails := emails, phoneNumbers := phoneNumbers,
        secondaryContactIds := secondaryContacts.map fun c => c.id }

/-- `ContactService.mergePrimaryContacts`, lines 90-141 of the service.

The two update loops mutate the fetched row objects in place and issue one
`updateContact` per touched row; the in-memory working list after each loop
is reproduced by the `mem1`/`mem2` maps, and the store after each loop by a
`foldl` of `updateContact` calls.  When no primary exists among the fetched
groups, `primaryContacts[0]` is `undefined` and the first dereference of
`oldestPrimary.id` throws a `TypeError`; the arms of the empty match below
place that throw exactly where the source hits it. -/
def mergePrimaryContacts (st : Database) (primaryIds : List Nat)
    (email phoneNumber : Option String) : Database × Except String ConsolidatedContact :=
  let allContactsGroups := primaryIds.map (findAllLinkedContacts st)
  let allContacts := allContactsGroups.flatten
  let primaryContacts := sortByCreatedAt
    (allContacts.filter fun c => decide (c.linkPrecedence = Precedence.primary))
  match primaryContacts with
  | [] =>
    if (allContacts.filter fun c => decide (c.linkPrecedence = Precedence.secondary)) = [] then
      if needsNewSecondaryContact allContacts email phoneNumber then
        (st, Except.error "TypeError: Cannot read properties of undefined")
      else (st, buildConsolidatedContact allContacts)
    else (st, Except.error "TypeError: Cannot read properties of undefined")
  | oldestPrimary :: _ =>
    let demoted := allContacts.filter fun c =>
      decide (c.linkPrecedence = Precedence.primary ∧ c.id ≠ oldestPrimary.id)
    let st1 := demoted.foldl
      (fun s q => updateContact s q.id (some oldestPrimary.id) (some Precedence.secondary)) st
    let mem1 := allContacts.map fun c =>
      if c.linkPrecedence = Precedence.primary ∧ c.id ≠ oldestPrimary.id then
        { c with linkedId := some oldestPrimary.id, linkPrecedence := Precedence.secondary }
      else c
    let toRelink := mem1.filter fun c =>
      decide (c.linkPrecedence = Precedence.secondary ∧ c.linkedId ≠ some oldestPrimary.id)
    let st2 := toRelink.foldl
      (fun s q => updateContact s q.id (some oldestPrimary.id) none) st1
    let mem2 := mem1.map fun c =>
      if c.linkPrecedence = Precedence.secondary ∧ c.linkedId ≠ some oldestPrimary.id then
        { c with linkedId := some oldestPrimary.id }
      else c
    if needsNewSecondaryContact mem2 email phoneNumber then
      let res := createContact st2 (orNull email) (orNull phoneNumber)
        (some oldestPrimary.id) Precedence.secondary
      (res.2, buildConsolidatedContact (mem2 ++ [res.1]))
    else (st2, buildConsolidatedContact mem2)

/-- The candidate set of an observation: `ContactService.identify` line 15. -/
def candidatesOf (st : Database) (req : IdentifyRequest) : List Contact :=
  findContactsByEmailOrPhone st req.email req.phoneNumber

/-- The governing-primary-id set (`allPrimaryIds`, identify lines 28-41):
ids of primary candidates followed by `linkedId`s of secondary candidates,
deduplicated in first-occurrence order as a JavaScript `Set` does. -/
def governingIds (st : Database) (req : IdentifyRequest) : List Nat :=
  let existingContacts := candidatesOf st req
  let primaryContacts := existingContacts.filter fun c =>
    decide (c.linkPrecedence = Precedence.primary)
  let secondaryContacts := existingContacts.filter fun c =>
    decide (c.linkPrecedence = Precedence.secondary)
  insertOrderDedup
    ((primaryContacts.map fun c => c.id) ++ secondaryContacts.filterMap fun c => c.linkedId)

/-- `ContactService.identify`: the three-outcome state machine of lines
11-70.  `existingContacts.length === 0` is the emptiness test on the
candidate list; the match on `governingIds` realises the `size === 0`,
`size === 1` and `size >= 2` branches on `allPrimaryIds`. -/
def identify (st : Database) (req : IdentifyRequest) :
    Database × Except String ConsolidatedContact :=
  if candidatesOf st req = [] then
    let res := createContact st (orNull req.email) (orNull req.phoneNumber)
      none Precedence.primary
    (res.2, buildConsolidatedContact [res.1])
  else
    match governingIds st req with
    | [] => (st, Except.error "No primary contacts found")
    | [primaryId] =>
      let allLinkedContacts := findAllLinkedContacts st primaryId
      if needsNewSecondaryContact allLinkedContacts req.email req.phoneNumber then
        let res := createContact st (orNull req.email) (orNull req.phoneNumber)
          (some primaryId) Precedence.secondary
        (res.2, buildConsolidatedContact (allLinkedContacts ++ [res.1]))
      else (st, buildConsolidatedContact allLinkedContacts)
    | pids => mergePrimaryContacts st pids req.email req.phoneNumber

/-- The full membership an observation resolves to: the rows of every group
fetched for a governing primary id, in fetch order. -/
def fullMembership (st : Database) (req : IdentifyRequest) : List Contact :=
  ((governingIds st req).map (findAllLinkedContacts st)).flatten

/-- All primary records across the fetched groups, in fetch order. -/
def rootsList (st : Database) (req : IdentifyRequest) : List Contact :=
  (fullMembership st req).filter fun c => decide (c.linkPrecedence = Precedence.primary)

/-- Row lookup by id (first match, unique under `StoreInv`). -/
def getById (st : Database) (cid : Nat) : Option Contact :=
  st.contacts.find? fun c => decide (c.id = cid)

/-- Store well-formedness maintained by the service: distinct ids below the
autoincrement counter, no soft-deleted rows (the service never deletes),
primaries unlinked, and every secondary linked to a primary's id. -/
def StoreInv (st : Database) : Prop :=
  (st.contacts.map fun c => c.id).Nodup ∧
  (∀ c ∈ st.contacts, c.id < st.nextId) ∧
  (∀ c ∈ st.contacts, c.deletedAt = none) ∧
  (∀ c ∈ st.contacts, c.linkPrecedence = Precedence.primary → c.linkedId = none) ∧
  (∀ c ∈ st.contacts, c.linkPrecedence = Precedence.secondary →
    ∃ p, p ∈ st.contacts ∧ p.linkPrecedence = Precedence.primary ∧ c.linkedId = some p.id)

/-- The depth-1 forest shape stated by the spec: every secondary's
`linkedId` is a primary's id, and any consolidated identity contains at
most one primary record. -/
def DepthOneForest (st : Database) : Prop :=
  (∀ c ∈ st.contacts, c.linkPrecedence = Precedence.secondary →
    ∃ p, p ∈ st.contacts ∧ p.linkPrecedence = Precedence.primary ∧ c.linkedId = some p.id) ∧
  ∀ pid : Nat,
    ((findAllLinkedContacts st pid).filter fun c =>
      decide (c.linkPrecedence = Precedence.primary)).length ≤ 1

/-- The consolidated view as §4.3 of the spec words it: the single primary's
id; unique emails with the primary's first then secondary emails by
ascending `createdAt`, first occurrence winning; phones likewise; secondary
ids by ascending `createdAt`. -/
def specConsolidatedView (contacts : List Contact) (primary : Contact) : ConsolidatedContact :=
  let secondaries := sortByCreatedAt
    (contacts.filter fun c => decide (c.linkPrecedence = Precedence.secondary))
  { primaryContactId := primary.id
    emails := dedupKeepFirst
      (truthyStr primary.email ++ secondaries.filterMap fun c => orNull c.email)
    phoneNumbers := dedupKeepFirst
      (truthyStr primary.phoneNumber ++ secondaries.filterMap fun c => orNull c.phoneNumber)
    secondaryContactIds := secondaries.map fun c => c.id }

/-- The spec's new-information test as a proposition over the membership:
no member carries exactly the observation's (email, phone) pair, and the
observation supplies an email or phone value present nowhere in the
membership. -/
def NewInfoNeeded (l : List Contact) (email phoneNumber : Option String) : Prop :=
  (¬ ∃ c, c ∈ l ∧ c.email = orNull email ∧ c.phoneNumber = orNull phoneNumber) ∧
  ((∃ s, orNull email = some s ∧ ∀ c ∈ l, c.email ≠ some s) ∨
   (∃ s, orNull phoneNumber = some s ∧ ∀ c ∈ l, c.phoneNumber ≠ some s))

/-- The net per-row effect of a merge with governing ids `pids` and
surviving primary id `rid` on the stored rows: non-surviving roots are
demoted and relinked, secondaries of the merged groups are relinked, and
both rewrites stamp `updatedAt`. -/
def mergeUpdate (st : Database) (pids : List Nat) (rid : Nat) (c : Contact) : Contact :=
  if c.linkPrecedence = Precedence.primary ∧ c.id ∈ pids ∧ c.id ≠ rid then
    { c with linkedId := some rid, linkPrecedence := Precedence.secondary, updatedAt := st.now }
  else if c.linkPrecedence = Precedence.secondary ∧ c.linkedId ≠ some rid ∧
      (∃ pid, pid ∈ pids ∧ c.linkedId = some pid) then
    { c with linkedId := some rid, updatedAt := st.now }
  else c

instance (st : Database) : Decidable (StoreInv st) := by
  unfold StoreInv
  infer_instance

instance (l : List Contact) (e p : Option String) : Decidable (NewInfoNeeded l e p) := by
  unfold NewInfoNeeded
  infer_instance

/-- The two-primary store used for the C7 counterexample and witness: both
primaries share createdAt 5, the Store lists id 2 before id 1. -/
def stC7 : Database :=
  { contacts :=
      [{ id := 2, email := none, phoneNumber := some "111", linkedId := none,
         linkPrecedence := Precedence.primary, createdAt := 5, updatedAt := 5,
         deletedAt := none },
       { id := 1, email := some "a@x", phoneNumber := none, linkedId := none,
         linkPrecedence := Precedence.primary, createdAt := 5, updatedAt := 5,
         deletedAt := none }],
    nextId := 3, now := 9 }

/-- The observation bridging the two identities of `stC7`. -/
def reqC7 : IdentifyRequest := { email := some "a@x", phoneNumber := some "111" }

/-- A store whose only record is a secondary with a dangling linkedId; used
to exhibit the missing transactional boundary (C9). -/
def stC9 : Database :=
  { contacts :=
      [{ id := 1, email := some "a@x", phoneNumber := some "111", linkedId := some 99,
         linkPrecedence := Precedence.secondary, createdAt := 1, updatedAt := 1,
         deletedAt := none }],
    nextId := 2, now := 5 }

/-- The observation that makes identify write and then fail on `stC9`. -/
def reqC9 : IdentifyRequest := { email := some "b@x", phoneNumber := some "111" }

/-- Concrete store for the C1 witness: identity A (primary id 1) and
identity B (primary id 2 with secondary id 3). -/
def stW1 : Database :=
  { contacts :=
      [{ id := 1, email := some "a@x", phoneNumber := none, linkedId := none,
         linkPrecedence := Precedence.primary, createdAt := 1, updatedAt := 1,
         deletedAt := none },
       { id := 2, email := none, phoneNumber := some "222", linkedId := none,
         linkPrecedence := Precedence.primary, createdAt := 2, updatedAt := 2,
         deletedAt := none },
       { id := 3, email := some "b@x", phoneNumber := none, linkedId := some 2,
         linkPrecedence := Precedence.secondary, createdAt := 3, updatedAt := 3,
         deletedAt := none }],
    nextId := 4, now := 9 }

/-- Observation bridging the two identities of `stW1`. -/
def reqW1 : IdentifyRequest := { email := some "a@x", phoneNumber := some "222" }

/-- Concrete single-primary store for the C2 witness. -/
def stW2 : Database :=
  { contacts :=
      [{ id := 1, email := some "a@x", phoneNumber := some "111", linkedId := none,
         linkPrecedence := Precedence.primary, createdAt := 1, updatedAt := 1,
         deletedAt := none }],
    nextId := 2, now := 5 }

/-- Observation with a new email on a known phone, for the C2 witness. -/
def reqW2 : IdentifyRequest := { email := some "b@x", phoneNumber := some "111" }

/-- Concrete store for the C3 witness. -/
def stW3 : Database :=
  { contacts :=
      [{ id := 1, email := some "a@x", phoneNumber := some "111", linkedId := none,
         linkPrecedence := Precedence.primary, createdAt := 1, updatedAt := 1,
         deletedAt := none }],
    nextId := 2, now := 5 }

/-- Observation for the C3 witness. -/
def reqW3 : IdentifyRequest := { email := some "c@x", phoneNumber := none }

/-- The primary record of the C4 witness membership. -/
def pW4 : Contact :=
  { id := 1, email := some "a@x", phoneNumber := some "111", linkedId := none,
    linkPrecedence := Precedence.primary, createdAt := 1, updatedAt := 1, deletedAt := none }

/-- A two-record membership (one primary, one secondary) for the C4 witness. -/
def contactsW4 : List Contact :=
  [pW4,
   { id := 2, email := some "b@x", phoneNumber := none, linkedId := some 1,
     linkPrecedence := Precedence.secondary, createdAt := 2, updatedAt := 2,
     deletedAt := none }]

/-- The empty store for the C5 witness. -/
def stW5 : Database := { contacts := [], nextId := 0, now := 0 }

/-- Observation for the C5 witness. -/
def reqW5 : IdentifyRequest := { email := some "lorraine@x", phoneNumber := some "123" }

/-- Concrete store for the C6 witness. -/
def stW6 : Database :=
  { contacts :=
      [{ id := 1, email := some "a@x", phoneNumber := some "111", linkedId := none,
         linkPrecedence := Precedence.primary, createdAt := 1, updatedAt := 1,
         deletedAt := none }],
    nextId := 2, now := 5 }

/-- The exact already-stored pair, resubmitted, for the C6 witness. -/
def reqW6 : IdentifyRequest := { email := some "a@x", phoneNumber := some "111" }

/-- Concrete store for the C10 witness. -/
def stW10 : Database :=
  { contacts :=
      [{ id := 1, email := some "a@x", phoneNumber := some "111", linkedId := none,
         linkPrecedence := Precedence.primary, createdAt := 1, updatedAt := 1,
         deletedAt := none }],
    nextId := 2, now := 5 }

/-- Observation carrying no new information, for the C10 witness. -/
def reqW10 : IdentifyRequest := { email := some "a@x", phoneNumber := some "111" }

/-- Sortedness by `createdAt`, as a pairwise bound. -/
def SortedByCreated (l : List Contact) : Prop :=
  l.Pairwise fun a b => a.createdAt ≤ b.createdAt

/-! ### Lemmas about the stable sort -/

theorem insertByCreatedAt_perm (c : Contact) (l : List Contact) :
    (insertByCreatedAt c l).Perm (c :: l) := by
  induction l with
  | nil => simp [insertByCreatedAt]
  | cons d ds ih =>
    simp only [insertByCreatedAt]
    split
    · exact List.Perm.refl _
    · exact (List.Perm.cons d ih).trans (List.Perm.swap c d ds)

theorem sortByCreatedAt_perm_aux (l acc : List Contact) :
    (l.foldl (fun a c => insertByCreatedAt c a) acc).Perm (acc ++ l) := by
  induction l generalizing acc with
  | nil => simp
  | cons c cs ih =>
    simp only [List.foldl_cons]
    refine (ih (insertByCreatedAt c acc)).trans ?_
    refine (List.Perm.append_right cs (insertByCreatedAt_perm c acc)).trans ?_
    exact List.perm_middle.symm

theorem sortByCreatedAt_perm (l : List Contact) : (sortByCreatedAt l).Perm l := by
  simpa using sortByCreatedAt_perm_aux l []

theorem mem_sortByCreatedAt {c : Contact} {l : List Contact} :
    c ∈ sortByCreatedAt l ↔ c ∈ l :=
  (sortByCreatedAt_perm l).mem_iff

theorem sortedByCreated_insert {c : Contact} {l : List Contact}
    (h : SortedByCreated l) : SortedByCreated (insertByCreatedAt c l) := by
  induction l with
  | nil => simp [insertByCreatedAt, SortedByCreated]
  | cons d ds ih =>
    rcases (List.pairwise_cons.mp h) with ⟨hd, hds⟩
    simp only [insertByCreatedAt]
    split
    · rename_i hlt
      refine List.pairwise_cons.mpr ⟨?_, h⟩
      intro x hx
      rcases List.mem_cons.mp hx with hx | hx
      · exact Nat.le_of_lt (hx ▸ hlt)
      · exact Nat.le_trans (Nat.le_of_lt hlt) (hd x hx)
    · rename_i hge
      refine List.pairwise_cons.mpr ⟨?_, ih hds⟩
      intro x hx
      have hx' := (insertByCreatedAt_perm c ds).mem_iff.mp hx
      rcases List.mem_cons.mp hx' with hx' | hx'
      · subst hx'
        exact Nat.le_of_not_lt hge
      · exact hd x hx'

theorem sortedByCreated_sort_aux (l : List Contact) :
    ∀ acc, SortedByCreated acc →
      SortedByCreated (l.foldl (fun a c => insertByCreatedAt c a) acc) := by
  induction l with
  | nil => intro acc h; simpa using h
  | cons c cs ih =>
    intro acc h
    simpa using ih (insertByCreatedAt c acc) (sortedByCreated_insert h)

theorem sortedByCreated_sortByCreatedAt (l : List Contact) :
    SortedByCreated (sortByCreatedAt l) :=
  sortedByCreated_sort_aux l [] (by simp [SortedByCreated])

theorem head_insertByCreatedAt (c : Contact) (l : List Contact) :
    (insertByCreatedAt c l).head? = pickOlder l.head? c := by
  cases l with
  | nil => simp [insertByCreatedAt, pickOlder]
  | cons d ds =>
    simp only [insertByCreatedAt, pickOlder, List.head?_cons]
    split <;> simp

theorem head_sort_foldl (l : List Contact) :
    ∀ acc : List Contact,
      (l.foldl (fun a c => insertByCreatedAt c a) acc).head? = l.foldl pickOlder acc.head? := by
  induction l with
  | nil => intro acc; rfl
  | cons c cs ih =>
    intro acc
    simp only [List.foldl_cons]
    rw [ih (insertByCreatedAt c acc), head_insertByCreatedAt]

theorem head_sortByCreatedAt (l : List Contact) :
    (sortByCreatedAt l).head? = firstMin l := by
  simpa using head_sort_foldl l []

theorem firstMin_aux (l : List Contact) :
    ∀ b r, l.foldl pickOlder (some b) = some r →
      (r = b ∧ ∀ x ∈ l, b.createdAt ≤ x.createdAt) ∨
      (∃ l₁ l₂, l = l₁ ++ r :: l₂ ∧ r.createdAt < b.createdAt ∧
        (∀ x ∈ l₁, r.createdAt < x.createdAt) ∧ ∀ x ∈ l₂, r.createdAt ≤ x.createdAt) := by
  induction l with
  | nil =>
    intro b r h
    simp only [List.foldl_nil, Option.some_inj] at h
    exact Or.inl ⟨h.symm, by simp⟩
  | cons c cs ih =>
    intro b r h
    simp only [List.foldl_cons, pickOlder] at h
    by_cases hlt : c.createdAt < b.createdAt
    · rw [if_pos hlt] at h
      rcases ih c r h with ⟨rfl, hall⟩ | ⟨l₁, l₂, heq, hrb, h₁, h₂⟩
      · exact Or.inr ⟨[], cs, by simp, hlt, by simp, hall⟩
      · refine Or.inr ⟨c :: l₁, l₂, by simp [heq], Nat.lt_trans hrb hlt, ?_, h₂⟩
        intro x hx
        rcases List.mem_cons.mp hx with hx | hx
        · exact hx ▸ hrb
        · exact h₁ x hx
    · rw [if_neg hlt] at h
      rcases ih b r h with ⟨rfl, hall⟩ | ⟨l₁, l₂, heq, hrb, h₁, h₂⟩
      · exact Or.inl ⟨rfl, by
          intro x hx
          rcases List.mem_cons.mp hx with hx | hx
          · exact hx ▸ Nat.le_of_not_lt hlt
          · exact hall x hx⟩
      · refine Or.inr ⟨c :: l₁, l₂, by simp [heq], hrb, ?_, h₂⟩
        intro x hx
        rcases List.mem_cons.mp hx with hx | hx
        · exact hx ▸ Nat.lt_of_lt_of_le hrb (Nat.le_of_not_lt hlt)
        · exact h₁ x hx

theorem firstMin_spec {l : List Contact} {r : Contact} (h : firstMin l = some r) :
    ∃ l₁ l₂, l = l₁ ++ r :: l₂ ∧
      (∀ x ∈ l₁, r.createdAt < x.createdAt) ∧ ∀ x ∈ l₂, r.createdAt ≤ x.createdAt := by
  cases l with
  | nil => simp [firstMin] at h
  | cons c cs =>
    have h' : cs.foldl pickOlder (some c) = some r := by
      simpa [firstMin, pickOlder] using h
    rcases firstMin_aux cs c r h' with ⟨rfl, hall⟩ | ⟨l₁, l₂, heq, hrc, h₁, h₂⟩
    · exact ⟨[], cs, rfl, by simp, hall⟩
    · refine ⟨c :: l₁, l₂, by simp [heq], ?_, h₂⟩
      intro x hx
      rcases List.mem_cons.mp hx with hx | hx
      · exact hx ▸ hrc
      · exact h₁ x hx

theorem firstMin_mem {l : List Contact} {r : Contact} (h : firstMin l = some r) : r ∈ l := by
  rcases firstMin_spec h with ⟨l₁, l₂, rfl, -, -⟩
  simp

theorem firstMin_min {l : List Contact} {r : Contact} (h : firstMin l = some r) :
    ∀ x ∈ l, r.createdAt ≤ x.createdAt := by
  rcases firstMin_spec h with ⟨l₁, l₂, rfl, h₁, h₂⟩
  intro x hx
  rcases List.mem_append.mp hx with hx | hx
  · exact Nat.le_of_lt (h₁ x hx)
  · rcases List.mem_cons.mp hx with hx | hx
    · simp [hx]
    · exact h₂ x hx

theorem firstMin_isSome {l : List Contact} (h : l ≠ []) : (firstMin l).isSome := by
  cases l with
  | nil => exact absurd rfl h
  | cons c cs =>
    have : ∀ (m : List Contact) (b : Contact), (m.foldl pickOlder (some b)).isSome := by
      intro m
      induction m with
      | nil => intro b; rfl
      | cons d ds ih =>
        intro b
        simp only [List.foldl_cons, pickOlder]
        split <;> exact ih _
    simpa [firstMin, pickOlder] using this cs c

/-! ### Filtering commutes with the stable sort -/

theorem filter_insertByCreatedAt (p : Contact → Bool) (c : Contact) {l : List Contact}
    (hs : SortedByCreated l) :
    (insertByCreatedAt c l).filter p =
      if p c then insertByCreatedAt c (l.filter p) else l.filter p := by
  induction l with
  | nil =>
    cases hpc : p c with
    | true => simp [insertByCreatedAt, List.filter, hpc]
    | false => simp [insertByCreatedAt, List.filter, hpc]
  | cons d ds ih =>
    rcases (List.pairwise_cons.mp hs) with ⟨hd, hds⟩
    simp only [insertByCreatedAt]
    by_cases hlt : c.createdAt < d.createdAt
    · rw [if_pos hlt]
      cases hpc : p c with
      | true =>
        rw [List.filter_cons_of_pos hpc, if_pos rfl]
        cases hfl : (d :: ds).filter p with
        | nil => rfl
        | cons e es =>
          have he : e ∈ (d :: ds).filter p := by rw [hfl]; exact List.mem_cons_self e es
          have he' := List.mem_filter.mp he
          have hde : d.createdAt ≤ e.createdAt := by
            rcases List.mem_cons.mp he'.1 with h | h
            · exact h ▸ Nat.le_refl _
            · exact hd e h
          simp only [insertByCreatedAt]
          rw [if_pos (Nat.lt_of_lt_of_le hlt hde)]
      | false =>
        rw [List.filter_cons_of_neg (by simp [hpc]), if_neg (by simp [hpc])]
    · rw [if_neg hlt]
      cases hpd : p d with
      | true =>
        rw [List.filter_cons_of_pos hpd, List.filter_cons_of_pos hpd, ih hds]
        cases hpc : p c with
        | true =>
          rw [if_pos rfl, if_pos rfl]
          simp only [insertByCreatedAt]
          rw [if_neg hlt]
        | false =>
          rw [if_neg (by simp [hpc]), if_neg (by simp [hpc])]
      | false =>
        rw [List.filter_cons_of_neg (by simp [hpd]), List.filter_cons_of_neg (by simp [hpd]),
          ih hds]

theorem filter_sort_foldl (p : Contact → Bool) (l : List Contact) :
    ∀ acc, SortedByCreated acc →
      (l.foldl (fun a c => insertByCreatedAt c a) acc).filter p =
        (l.filter p).foldl (fun a c => insertByCreatedAt c a) (acc.filter p) := by
  induction l with
  | nil => intro acc _; rfl
  | cons c cs ih =>
    intro acc hacc
    simp only [List.foldl_cons]
    rw [ih (insertByCreatedAt c acc) (sortedByCreated_insert hacc)]
    cases hpc : p c with
    | true =>
      rw [List.filter_cons_of_pos hpc]
      simp only [List.foldl_cons]
      rw [filter_insertByCreatedAt p c hacc, if_pos hpc]
    | false =>
      rw [List.filter_cons_of_neg (by simp [hpc])]
      rw [filter_insertByCreatedAt p c hacc, if_neg (by simp [hpc])]

theorem filter_sortByCreatedAt (p : Contact → Bool) (l : List Contact) :
    (sortByCreatedAt l).filter p = sortByCreatedAt (l.filter p) := by
  simpa using filter_sort_foldl p l [] (by simp [SortedByCreated])

/-! ### Insertion-order deduplication -/

theorem insertOrderDedup_mem_aux (l : List Nat) :
    ∀ acc x, x ∈ l.foldl (fun a y => if y ∈ a then a else a ++ [y]) acc ↔ x ∈ acc ∨ x ∈ l := by
  induction l with
  | nil => intro acc x; simp
  | cons y ys ih =>
    intro acc x
    simp only [List.foldl_cons]
    rw [ih]
    by_cases hy : y ∈ acc
    · rw [if_pos hy]
      constructor
      · rintro (h | h)
        · exact Or.inl h
        · exact Or.inr (List.mem_cons_of_mem y h)
      · rintro (h | h)
        · exact Or.inl h
        · rcases List.mem_cons.mp h with rfl | h
          · exact Or.inl hy
          · exact Or.inr h
    · rw [if_neg hy]
      simp only [List.mem_append, List.mem_singleton, List.mem_cons]
      tauto

theorem mem_insertOrderDedup {l : List Nat} {x : Nat} :
    x ∈ insertOrderDedup l ↔ x ∈ l := by
  rw [insertOrderDedup, insertOrderDedup_mem_aux]
  simp

theorem insertOrderDedup_nodup_aux (l : List Nat) :
    ∀ acc, acc.Nodup → (l.foldl (fun a y => if y ∈ a then a else a ++ [y]) acc).Nodup := by
  induction l with
  | nil => intro acc h; simpa using h
  | cons y ys ih =>
    intro acc h
    simp only [List.foldl_cons]
    by_cases hy : y ∈ acc
    · rw [if_pos hy]; exact ih acc h
    · rw [if_neg hy]
      refine ih _ ?_
      simp [List.nodup_append, h, List.disjoint_singleton, hy]

theorem insertOrderDedup_nodup (l : List Nat) : (insertOrderDedup l).Nodup :=
  insertOrderDedup_nodup_aux l [] (by simp)

/-! ### Lookup helpers -/

theorem id_eq_of_mem_of_nodup {l : List Contact} (hn : (l.map fun c => c.id).Nodup)
    {a b : Contact} (ha : a ∈ l) (hb : b ∈ l) (hid : a.id = b.id) : a = b :=
  List.inj_on_of_nodup_map hn ha hb hid

theorem find?_id_of_mem {l : List Contact} (hn : (l.map fun c => c.id).Nodup)
    {c : Contact} (hc : c ∈ l) :
    l.find? (fun d => decide (d.id = c.id)) = some c := by
  induction l with
  | nil => simp at hc
  | cons d ds ih =>
    by_cases hd : d.id = c.id
    · have : d = c := id_eq_of_mem_of_nodup hn (by simp) hc hd
      subst this
      simp [List.find?_cons]
    · have hcd : c ∈ ds := by
        rcases List.mem_cons.mp hc with rfl | h
        · exact absurd rfl hd
        · exact h
      have hdec : decide (d.id = c.id) = false := by simp [hd]
      have hn' : (ds.map fun c => c.id).Nodup := (List.nodup_cons.mp (by simpa using hn)).2
      rw [List.find?_cons, hdec]
      exact ih hn' hcd

theorem find?_append_of_some {p : Contact → Bool} {l₁ : List Contact} {x : Contact}
    (l₂ : List Contact) (h : l₁.find? p = some x) : (l₁ ++ l₂).find? p = some x := by
  rw [List.find?_append, h]; rfl

/-! ### The update loops as one pass over the table -/

theorem foldl_updateContact (lid : Option Nat) (prec : Option Precedence) (ps : List Contact) :
    ∀ st : Database,
      ps.foldl (fun s q => updateContact s q.id lid prec) st =
        { st with contacts := st.contacts.map fun c =>
            if ps.any (fun q => decide (q.id = c.id)) then
              { c with linkedId := lid, linkPrecedence := prec.getD c.linkPrecedence,
                       updatedAt := st.now }
            else c } := by
  induction ps with
  | nil =>
    intro st
    simp
  | cons q qs ih =>
    intro st
    rw [List.foldl_cons, ih (updateContact st q.id lid prec)]
    simp only [updateContact, List.map_map]
    congr 1
    apply List.map_congr_left
    intro c _
    simp only [Function.comp_apply]
    by_cases hq : c.id = q.id
    · rw [if_pos hq]
      try dsimp only
      have hcons : ((q :: qs).any fun p => decide (p.id = c.id)) = true := by
        have hd : decide (q.id = c.id) = true := decide_eq_true hq.symm
        simp [List.any_cons, hd]
      rw [hcons, if_pos rfl]
      by_cases hqs : (qs.any fun p => decide (p.id = c.id)) = true
      · rw [if_pos hqs]
        cases prec <;> rfl
      · rw [if_neg hqs]
    · rw [if_neg hq]
      try dsimp only
      have hdq : decide (q.id = c.id) = false := decide_eq_false fun h => hq h.symm
      have hcons : ((q :: qs).any fun p => decide (p.id = c.id)) =
          (qs.any fun p => decide (p.id = c.id)) := by simp [List.any_cons, hdq]
      rw [hcons]

/-! ### Characterising the query layer and the new-information test -/

theorem mem_findAllLinkedContacts {st : Database} {pid : Nat} {c : Contact} :
    c ∈ findAllLinkedContacts st pid ↔
      c ∈ st.contacts ∧ c.deletedAt = none ∧ (c.id = pid ∨ c.linkedId = some pid) := by
  rw [findAllLinkedContacts, mem_sortByCreatedAt, List.mem_filter]
  simp [and_assoc]

theorem mem_candidatesOf {st : Database} {req : IdentifyRequest} {c : Contact} :
    c ∈ candidatesOf st req ↔
      c ∈ st.contacts ∧ c.deletedAt = none ∧
        ((∃ e, orNull req.email = some e ∧ c.email = some e) ∨
         (∃ p, orNull req.phoneNumber = some p ∧ c.phoneNumber = some p)) := by
  rw [candidatesOf, findContactsByEmailOrPhone]
  cases he : orNull req.email <;> cases hp : orNull req.phoneNumber <;>
    simp [List.mem_filter, and_assoc] <;> tauto

theorem mem_governingIds {st : Database} {req : IdentifyRequest} {pid : Nat} :
    pid ∈ governingIds st req ↔
      (∃ c, c ∈ candidatesOf st req ∧ c.linkPrecedence = Precedence.primary ∧ c.id = pid) ∨
      (∃ c, c ∈ candidatesOf st req ∧ c.linkPrecedence = Precedence.secondary ∧
        c.linkedId = some pid) := by
  rw [governingIds]
  rw [mem_insertOrderDedup]
  simp only [List.mem_append, List.mem_map, List.mem_filterMap, List.mem_filter,
    decide_eq_true_eq]
  constructor
  · rintro (⟨c, ⟨hc, hp⟩, rfl⟩ | ⟨c, ⟨hc, hp⟩, hl⟩)
    · exact Or.inl ⟨c, hc, hp, rfl⟩
    · exact Or.inr ⟨c, hc, hp, hl⟩
  · rintro (⟨c, hc, hp, rfl⟩ | ⟨c, hc, hp, hl⟩)
    · exact Or.inl ⟨c, ⟨hc, hp⟩, rfl⟩
    · exact Or.inr ⟨c, ⟨hc, hp⟩, hl⟩

theorem governingIds_nodup (st : Database) (req : IdentifyRequest) :
    (governingIds st req).Nodup := by
  rw [governingIds]
  exact insertOrderDedup_nodup _

theorem governingIds_ne_nil {st : Database} {req : IdentifyRequest}
    (hInv : StoreInv st) (hc : candidatesOf st req ≠ []) : governingIds st req ≠ [] := by
  obtain ⟨c, hcm⟩ := List.exists_mem_of_ne_nil _ hc
  have hcst : c ∈ st.contacts := (mem_candidatesOf.mp hcm).1
  cases hprec : c.linkPrecedence with
  | primary =>
    have : c.id ∈ governingIds st req := mem_governingIds.mpr (Or.inl ⟨c, hcm, hprec, rfl⟩)
    intro h
    rw [h] at this
    simp at this
  | secondary =>
    obtain ⟨p, hp, hpp, hl⟩ := hInv.2.2.2.2 c hcst hprec
    have : p.id ∈ governingIds st req := mem_governingIds.mpr (Or.inr ⟨c, hcm, hprec, hl⟩)
    intro h
    rw [h] at this
    simp at this

theorem governing_root {st : Database} {req : IdentifyRequest} {pid : Nat}
    (hInv : StoreInv st) (hpid : pid ∈ governingIds st req) :
    ∃ p, p ∈ st.contacts ∧ p.id = pid ∧ p.linkPrecedence = Precedence.primary := by
  rcases mem_governingIds.mp hpid with ⟨c, hc, hprec, rfl⟩ | ⟨c, hc, hprec, hlink⟩
  · exact ⟨c, (mem_candidatesOf.mp hc).1, rfl, hprec⟩
  · obtain ⟨p, hp, hpp, hl⟩ := hInv.2.2.2.2 c (mem_candidatesOf.mp hc).1 hprec
    have : p.id = pid := by
      have := hl.symm.trans hlink
      exact Option.some_inj.mp this
    exact ⟨p, hp, this, hpp⟩

theorem needsNewSecondaryContact_iff (l : List Contact) (email phoneNumber : Option String) :
    needsNewSecondaryContact l email phoneNumber = true ↔ NewInfoNeeded l email phoneNumber := by
  rw [needsNewSecondaryContact, NewInfoNeeded]
  by_cases hex : (l.any fun c =>
      decide (c.email = orNull email ∧ c.phoneNumber = orNull phoneNumber)) = true
  · rw [if_pos hex]
    simp only [List.any_eq_true, decide_eq_true_eq] at hex
    obtain ⟨c, hcl, hce, hcp⟩ := hex
    constructor
    · intro h; cases h
    · rintro ⟨h1, -⟩
      exact absurd ⟨c, hcl, hce, hcp⟩ h1
  · rw [if_neg hex]
    simp only [List.any_eq_true, decide_eq_true_eq, not_exists, not_and] at hex
    have hok : ¬ ∃ c, c ∈ l ∧ c.email = orNull email ∧ c.phoneNumber = orNull phoneNumber := by
      rintro ⟨c, hc, he, hp⟩
      exact hex c hc he hp
    cases he : orNull email <;> cases hp : orNull phoneNumber <;>
      simp [he, hp, hok, List.any_eq_true, Bool.or_eq_true, Bool.not_eq_true',
        List.any_eq_false, not_exists] <;> tauto

theorem any_map_fields (l : List Contact) {f : Contact → Contact} (g : Contact → Bool)
    (hg : ∀ c, g (f c) = g c) : (l.map f).any g = l.any g := by
  induction l with
  | nil => rfl
  | cons c cs ih => simp [List.any_cons, hg c, ih]

theorem needsNewSecondaryContact_map (l : List Contact) (f : Contact → Contact)
    (hf : ∀ c, (f c).email = c.email ∧ (f c).phoneNumber = c.phoneNumber)
    (email phoneNumber : Option String) :
    needsNewSecondaryContact (l.map f) email phoneNumber =
      needsNewSecondaryContact l email phoneNumber := by
  have hex : ((l.map f).any fun c =>
        decide (c.email = orNull email ∧ c.phoneNumber = orNull phoneNumber))
      = l.any fun c => decide (c.email = orNull email ∧ c.phoneNumber = orNull phoneNumber) :=
    any_map_fields l _ fun c => by simp [(hf c).1, (hf c).2]
  have hem : ∀ s : String, ((l.map f).any fun c => decide (c.email = some s))
      = l.any fun c => decide (c.email = some s) :=
    fun s => any_map_fields l _ fun c => by simp [(hf c).1]
  have hph : ∀ s : String, ((l.map f).any fun c => decide (c.phoneNumber = some s))
      = l.any fun c => decide (c.phoneNumber = some s) :=
    fun s => any_map_fields l _ fun c => by simp [(hf c).2]
  rw [needsNewSecondaryContact, needsNewSecondaryContact, hex]
  cases he : orNull email <;> cases hp : orNull phoneNumber <;>
    simp [hem, hph]

/-! ### Success and failure of view assembly -/

theorem buildConsolidatedContact_ok_iff (l : List Contact) :
    (∃ v, buildConsolidatedContact l = Except.ok v) ↔
      ∃ c, c ∈ l ∧ c.linkPrecedence = Precedence.primary := by
  simp only [buildConsolidatedContact]
  cases hf : (sortByCreatedAt l).find? (fun c => decide (c.linkPrecedence = Precedence.primary)) with
  | none =>
    constructor
    · rintro ⟨v, hv⟩
      simp at hv
    · rintro ⟨c, hc, hp⟩
      have hsome : ((sortByCreatedAt l).find? fun c =>
          decide (c.linkPrecedence = Precedence.primary)).isSome := by
        rw [List.find?_isSome]
        exact ⟨c, mem_sortByCreatedAt.mpr hc, by simp [hp]⟩
      rw [hf] at hsome
      cases hsome
  | some primary =>
    constructor
    · intro _
      refine ⟨primary, mem_sortByCreatedAt.mp (List.mem_of_find?_eq_some hf), ?_⟩
      simpa using List.find?_some hf
    · intro _
      exact ⟨_, rfl⟩

theorem buildConsolidatedContact_error_iff (l : List Contact) :
    (∃ e, buildConsolidatedContact l = Except.error e) ↔
      ∀ c ∈ l, c.linkPrecedence ≠ Precedence.primary := by
  simp only [buildConsolidatedContact]
  cases hf : (sortByCreatedAt l).find? (fun c => decide (c.linkPrecedence = Precedence.primary)) with
  | none =>
    constructor
    · intro _ c hc hp
      have hsome : ((sortByCreatedAt l).find? fun c =>
          decide (c.linkPrecedence = Precedence.primary)).isSome := by
        rw [List.find?_isSome]
        exact ⟨c, mem_sortByCreatedAt.mpr hc, by simp [hp]⟩
      rw [hf] at hsome
      cases hsome
    · intro _
      exact ⟨_, rfl⟩
  | some primary =>
    constructor
    · rintro ⟨e, he⟩
      simp at he
    · intro h
      have hm := mem_sortByCreatedAt.mp (List.mem_of_find?_eq_some hf)
      exact absurd (by simpa using List.find?_some hf) (h primary hm)

/-! ### The three branches of identify -/

theorem identify_no_match {st : Database} {req : IdentifyRequest}
    (h : candidatesOf st req = []) :
    identify st req =
      ((createContact st (orNull req.email) (orNull req.phoneNumber) none Precedence.primary).2,
        buildConsolidatedContact
          [(createContact st (orNull req.email) (orNull req.phoneNumber) none
            Precedence.primary).1]) := by
  rw [identify, if_pos h]

theorem identify_err {st : Database} {req : IdentifyRequest}
    (hc : candidatesOf st req ≠ []) (hg : governingIds st req = []) :
    identify st req = (st, Except.error "No primary contacts found") := by
  rw [identify, if_neg hc, hg]

theorem identify_single {st : Database} {req : IdentifyRequest} {pid : Nat}
    (hc : candidatesOf st req ≠ []) (hg : governingIds st req = [pid]) :
    identify st req =
      if needsNewSecondaryContact (findAllLinkedContacts st pid) req.email req.phoneNumber then
        ((createContact st (orNull req.email) (orNull req.phoneNumber) (some pid)
            Precedence.secondary).2,
          buildConsolidatedContact (findAllLinkedContacts st pid ++
            [(createContact st (orNull req.email) (orNull req.phoneNumber) (some pid)
              Precedence.secondary).1]))
      else (st, buildConsolidatedContact (findAllLinkedContacts st pid)) := by
  rw [identify, if_neg hc, hg]

theorem identify_merge {st : Database} {req : IdentifyRequest} {a b : Nat} {t : List Nat}
    (hc : candidatesOf st req ≠ []) (hg : governingIds st req = a :: b :: t) :
    identify st req = mergePrimaryContacts st (a :: b :: t) req.email req.phoneNumber := by
  rw [identify, if_neg hc, hg]

/-! ### Membership in the fetched merge groups -/

theorem mem_mergeAll {st : Database} (hInv : StoreInv st) (pids : List Nat) {c : Contact} :
    c ∈ (pids.map (findAllLinkedContacts st)).flatten ↔
      c ∈ st.contacts ∧ ∃ pid, pid ∈ pids ∧ (c.id = pid ∨ c.linkedId = some pid) := by
  rw [List.mem_flatten]
  constructor
  · rintro ⟨g, hg, hcg⟩
    obtain ⟨pid, hpid, rfl⟩ := List.mem_map.mp hg
    have h := mem_findAllLinkedContacts.mp hcg
    exact ⟨h.1, pid, hpid, h.2.2⟩
  · rintro ⟨hcs, pid, hpid, hor⟩
    exact ⟨findAllLinkedContacts st pid, List.mem_map_of_mem _ hpid,
      mem_findAllLinkedContacts.mpr ⟨hcs, hInv.2.2.1 c hcs, hor⟩⟩

theorem mem_mergeAll_primary {st : Database} (hInv : StoreInv st) (pids : List Nat) {c : Contact}
    (hc : c ∈ st.contacts) (hp : c.linkPrecedence = Precedence.primary) :
    c ∈ (pids.map (findAllLinkedContacts st)).flatten ↔ c.id ∈ pids := by
  rw [mem_mergeAll hInv]
  have hlid : c.linkedId = none := hInv.2.2.2.1 c hc hp
  simp [hc, hlid]

theorem mem_mergeAll_secondary {st : Database} (hInv : StoreInv st) {pids : List Nat}
    (hroots : ∀ pid ∈ pids, ∃ p, p ∈ st.contacts ∧ p.id = pid ∧
      p.linkPrecedence = Precedence.primary)
    {c : Contact} (hc : c ∈ st.contacts) (hs : c.linkPrecedence = Precedence.secondary) :
    c ∈ (pids.map (findAllLinkedContacts st)).flatten ↔
      ∃ pid, pid ∈ pids ∧ c.linkedId = some pid := by
  rw [mem_mergeAll hInv]
  simp only [hc, true_and]
  constructor
  · rintro ⟨pid, hpid, hor⟩
    rcases hor with hid | hl
    · obtain ⟨p, hps, hpid', hpp⟩ := hroots pid hpid
      have : p = c := id_eq_of_mem_of_nodup hInv.1 hps hc (hpid'.trans hid.symm)
      rw [this] at hpp
      rw [hpp] at hs
      cases hs
    · exact ⟨pid, hpid, hl⟩
  · rintro ⟨pid, hpid, hl⟩
    exact ⟨pid, hpid, Or.inr hl⟩

theorem mem_mergeRoots {st : Database} (hInv : StoreInv st) (pids : List Nat) {c : Contact} :
    c ∈ ((pids.map (findAllLinkedContacts st)).flatten.filter fun q =>
        decide (q.linkPrecedence = Precedence.primary)) ↔
      c ∈ st.contacts ∧ c.linkPrecedence = Precedence.primary ∧ c.id ∈ pids := by
  rw [List.mem_filter]
  simp only [decide_eq_true_eq]
  constructor
  · rintro ⟨hm, hp⟩
    have h := (mem_mergeAll hInv pids).mp hm
    refine ⟨h.1, hp, ?_⟩
    exact (mem_mergeAll_primary hInv pids h.1 hp).mp hm
  · rintro ⟨hcs, hp, hid⟩
    exact ⟨(mem_mergeAll_primary hInv pids hcs hp).mpr hid, hp⟩

/-! ### Which rows the two merge loops touch -/

theorem demoted_any_iff {st : Database} (hInv : StoreInv st) (pids : List Nat)
    {r c : Contact} (hc : c ∈ st.contacts) :
    (((pids.map (findAllLinkedContacts st)).flatten.filter fun q =>
        decide (q.linkPrecedence = Precedence.primary ∧ q.id ≠ r.id)).any
      fun q => decide (q.id = c.id)) = true ↔
      c.linkPrecedence = Precedence.primary ∧ c.id ∈ pids ∧ c.id ≠ r.id := by
  rw [List.any_eq_true]
  constructor
  · rintro ⟨q, hq, hid⟩
    rw [List.mem_filter] at hq
    simp only [decide_eq_true_eq] at hq hid
    have hqs := ((mem_mergeAll hInv pids).mp hq.1).1
    have hqc : q = c := id_eq_of_mem_of_nodup hInv.1 hqs hc hid
    subst hqc
    exact ⟨hq.2.1, (mem_mergeAll_primary hInv pids hqs hq.2.1).mp hq.1, hq.2.2⟩
  · rintro ⟨hp, hid, hr⟩
    refine ⟨c, ?_, by simp⟩
    rw [List.mem_filter]
    simp only [decide_eq_true_eq]
    exact ⟨(mem_mergeAll_primary hInv pids hc hp).mpr hid, hp, hr⟩

theorem toRelink_any_iff {st : Database} (hInv : StoreInv st) {pids : List Nat}
    (hroots : ∀ pid ∈ pids, ∃ p, p ∈ st.contacts ∧ p.id = pid ∧
      p.linkPrecedence = Precedence.primary)
    (r : Contact) {c : Contact} (hc : c ∈ st.contacts) :
    ((((pids.map (findAllLinkedContacts st)).flatten.map fun q =>
        if q.linkPrecedence = Precedence.primary ∧ q.id ≠ r.id then
          { q with linkedId := some r.id, linkPrecedence := Precedence.secondary }
        else q).filter fun q =>
          decide (q.linkPrecedence = Precedence.secondary ∧ q.linkedId ≠ some r.id)).any
      fun q => decide (q.id = c.id)) = true ↔
      c.linkPrecedence = Precedence.secondary ∧ c.linkedId ≠ some r.id ∧
        ∃ pid, pid ∈ pids ∧ c.linkedId = some pid := by
  rw [List.any_eq_true]
  constructor
  · rintro ⟨q, hq, hid⟩
    rw [List.mem_filter] at hq
    obtain ⟨hqm, hqcond⟩ := hq
    obtain ⟨d, hdm, hdq⟩ := List.mem_map.mp hqm
    simp only [decide_eq_true_eq] at hqcond hid
    by_cases hd : d.linkPrecedence = Precedence.primary ∧ d.id ≠ r.id
    · rw [if_pos hd] at hdq
      rw [← hdq] at hqcond
      exact absurd rfl hqcond.2
    · rw [if_neg hd] at hdq
      subst hdq
      have hds := ((mem_mergeAll hInv pids).mp hdm).1
      have hdc : d = c := id_eq_of_mem_of_nodup hInv.1 hds hc hid
      subst hdc
      exact ⟨hqcond.1, hqcond.2,
        (mem_mergeAll_secondary hInv hroots hds hqcond.1).mp hdm⟩
  · rintro ⟨hs, hr, pid, hpid, hl⟩
    have hcm : c ∈ (pids.map (findAllLinkedContacts st)).flatten :=
      (mem_mergeAll_secondary hInv hroots hc hs).mpr ⟨pid, hpid, hl⟩
    have hnotd : ¬ (c.linkPrecedence = Precedence.primary ∧ c.id ≠ r.id) := by
      rintro ⟨hp, -⟩
      rw [hs] at hp
      cases hp
    refine ⟨c, ?_, by simp⟩
    rw [List.mem_filter]
    simp only [decide_eq_true_eq]
    constructor
    · exact List.mem_map.mpr ⟨c, hcm, by rw [if_neg hnotd]⟩
    · exact ⟨hs, hr⟩

/-! ### The net per-row merge effect -/

theorem mergeUpdate_fields (st : Database) (pids : List Nat) (rid : Nat) (c : Contact) :
    (mergeUpdate st pids rid c).id = c.id ∧
    (mergeUpdate st pids rid c).email = c.email ∧
    (mergeUpdate st pids rid c).phoneNumber = c.phoneNumber ∧
    (mergeUpdate st pids rid c).createdAt = c.createdAt ∧
    (mergeUpdate st pids rid c).deletedAt = c.deletedAt := by
  unfold mergeUpdate
  split
  · exact ⟨rfl, rfl, rfl, rfl, rfl⟩
  · split
    · exact ⟨rfl, rfl, rfl, rfl, rfl⟩
    · exact ⟨rfl, rfl, rfl, rfl, rfl⟩

theorem mergeUpdate_id (st : Database) (pids : List Nat) (rid : Nat) (c : Contact) :
    (mergeUpdate st pids rid c).id = c.id :=
  (mergeUpdate_fields st pids rid c).1

theorem needsNew_merge_mem (A : List Contact) (r : Contact) (e p : Option String) :
    needsNewSecondaryContact
      ((A.map fun c =>
          if c.linkPrecedence = Precedence.primary ∧ c.id ≠ r.id then
            { c with linkedId := some r.id, linkPrecedence := Precedence.secondary }
          else c).map fun c =>
        if c.linkPrecedence = Precedence.secondary ∧ c.linkedId ≠ some r.id then
          { c with linkedId := some r.id }
        else c) e p
    = needsNewSecondaryContact A e p := by
  rw [needsNewSecondaryContact_map _ _ (fun c => ⟨by split <;> rfl, by split <;> rfl⟩),
    needsNewSecondaryContact_map _ _ (fun c => ⟨by split <;> rfl, by split <;> rfl⟩)]

theorem mergePrimaryContacts_spec (st : Database) (pids : List Nat)
    (email phoneNumber : Option String) (hInv : StoreInv st)
    (hroots : ∀ pid ∈ pids, ∃ p, p ∈ st.contacts ∧ p.id = pid ∧
      p.linkPrecedence = Precedence.primary)
    (hne : pids ≠ []) :
    ∃ r, firstMin ((pids.map (findAllLinkedContacts st)).flatten.filter fun q =>
        decide (q.linkPrecedence = Precedence.primary)) = some r ∧
      r ∈ st.contacts ∧ r.linkPrecedence = Precedence.primary ∧ r.id ∈ pids ∧
      (mergePrimaryContacts st pids email phoneNumber).1 =
        { contacts := st.contacts.map (mergeUpdate st pids r.id) ++
            (if needsNewSecondaryContact ((pids.map (findAllLinkedContacts st)).flatten)
                email phoneNumber then
              [{ id := st.nextId, email := orNull email, phoneNumber := orNull phoneNumber,
                 linkedId := some r.id, linkPrecedence := Precedence.secondary,
                 createdAt := st.now, updatedAt := st.now, deletedAt := none }]
            else []),
          nextId := if needsNewSecondaryContact ((pids.map (findAllLinkedContacts st)).flatten)
              email phoneNumber then st.nextId + 1 else st.nextId,
          now := st.now } ∧
      ∃ v, (mergePrimaryContacts st pids email phoneNumber).2 = Except.ok v := by
  obtain ⟨pid0, hpid0⟩ := List.exists_mem_of_ne_nil _ hne
  obtain ⟨p0, hp0s, hp0id, hp0p⟩ := hroots pid0 hpid0
  have hp0roots : p0 ∈ ((pids.map (findAllLinkedContacts st)).flatten.filter fun q =>
      decide (q.linkPrecedence = Precedence.primary)) :=
    (mem_mergeRoots hInv pids).mpr ⟨hp0s, hp0p, hp0id ▸ hpid0⟩
  cases hsort : sortByCreatedAt ((pids.map (findAllLinkedContacts st)).flatten.filter fun q =>
      decide (q.linkPrecedence = Precedence.primary)) with
  | nil =>
    exfalso
    have := mem_sortByCreatedAt.mpr hp0roots
    rw [hsort] at this
    simp at this
  | cons r rest =>
    have hfm : firstMin ((pids.map (findAllLinkedContacts st)).flatten.filter fun q =>
        decide (q.linkPrecedence = Precedence.primary)) = some r := by
      rw [← head_sortByCreatedAt, hsort]
      rfl
    have hrmem := firstMin_mem hfm
    obtain ⟨hrs, hrp, hrid⟩ := (mem_mergeRoots hInv pids).mp hrmem
    have hrA : r ∈ (pids.map (findAllLinkedContacts st)).flatten :=
      List.mem_of_mem_filter hrmem
    refine ⟨r, hfm, hrs, hrp, hrid, ?_⟩
    simp only [mergePrimaryContacts]
    rw [hsort]
    dsimp only
    rw [foldl_updateContact, foldl_updateContact]
    dsimp only
    rw [needsNew_merge_mem]
    have hmap : ((st.contacts.map fun c =>
        if (((pids.map (findAllLinkedContacts st)).flatten.filter fun q =>
            decide (q.linkPrecedence = Precedence.primary ∧ q.id ≠ r.id)).any
          fun q => decide (q.id = c.id)) then
          { c with linkedId := some r.id,
                   linkPrecedence := (some Precedence.secondary).getD c.linkPrecedence,
                   updatedAt := st.now }
        else c).map fun c =>
        if ((((pids.map (findAllLinkedContacts st)).flatten.map fun q =>
            if q.linkPrecedence = Precedence.primary ∧ q.id ≠ r.id then
              { q with linkedId := some r.id, linkPrecedence := Precedence.secondary }
            else q).filter fun q =>
              decide (q.linkPrecedence = Precedence.secondary ∧
                q.linkedId ≠ some r.id)).any fun q => decide (q.id = c.id)) then
          { c with linkedId := some r.id,
                   linkPrecedence := (none : Option Precedence).getD c.linkPrecedence,
                   updatedAt := st.now }
        else c)
        = st.contacts.map (mergeUpdate st pids r.id) := by
      rw [List.map_map]
      apply List.map_congr_left
      intro c hc
      simp only [Function.comp_apply]
      by_cases h1 : c.linkPrecedence = Precedence.primary ∧ c.id ∈ pids ∧ c.id ≠ r.id
      · rw [if_pos ((demoted_any_iff hInv pids hc).mpr h1)]
        have h2 : ¬ (c.linkPrecedence = Precedence.secondary ∧ c.linkedId ≠ some r.id ∧
            ∃ pid, pid ∈ pids ∧ c.linkedId = some pid) := by
          rintro ⟨hs, -, -⟩
          rw [h1.1] at hs
          cases hs
        rw [if_neg (fun hb => h2 ((toRelink_any_iff hInv hroots r hc).mp (by
          simpa using hb)))]
        rw [mergeUpdate, if_pos h1]
        rfl
      · rw [if_neg (fun hb => h1 ((demoted_any_iff hInv pids hc).mp hb))]
        by_cases h2 : c.linkPrecedence = Precedence.secondary ∧ c.linkedId ≠ some r.id ∧
            ∃ pid, pid ∈ pids ∧ c.linkedId = some pid
        · rw [if_pos ((toRelink_any_iff hInv hroots r hc).mpr h2)]
          rw [mergeUpdate, if_neg h1, if_pos h2]
          rfl
        · rw [if_neg (fun hb => h2 ((toRelink_any_iff hInv hroots r hc).mp hb))]
          rw [mergeUpdate, if_neg h1, if_neg h2]
    have hg1r : (if r.linkPrecedence = Precedence.primary ∧ r.id ≠ r.id then
        { r with linkedId := some r.id, linkPrecedence := Precedence.secondary }
      else r) = r := by
      rw [if_neg (by rintro ⟨-, hx⟩; exact hx rfl)]
    have hg2r : (if r.linkPrecedence = Precedence.secondary ∧ r.linkedId ≠ some r.id then
        { r with linkedId := some r.id }
      else r) = r := by
      rw [if_neg (by rintro ⟨hs, -⟩; rw [hrp] at hs; cases hs)]
    have hrmem2 : r ∈ (((pids.map (findAllLinkedContacts st)).flatten.map fun q =>
        if q.linkPrecedence = Precedence.primary ∧ q.id ≠ r.id then
          { q with linkedId := some r.id, linkPrecedence := Precedence.secondary }
        else q).map fun q =>
        if q.linkPrecedence = Precedence.secondary ∧ q.linkedId ≠ some r.id then
          { q with linkedId := some r.id }
        else q) := by
      refine List.mem_map.mpr ⟨_, List.mem_map.mpr ⟨r, hrA, rfl⟩, ?_⟩
      rw [hg1r, hg2r]
    by_cases hnn : needsNewSecondaryContact ((pids.map (findAllLinkedContacts st)).flatten)
        email phoneNumber = true
    · rw [if_pos hnn, if_pos hnn, if_pos hnn]
      constructor
      · dsimp only [createContact]
        rw [hmap]
      · dsimp only [createContact]
        exact (buildConsolidatedContact_ok_iff _).mpr
          ⟨r, List.mem_append_left _ hrmem2, hrp⟩
    · rw [if_neg hnn, if_neg hnn, if_neg hnn]
      constructor
      · dsimp only
        rw [hmap, List.append_nil]
      · exact (buildConsolidatedContact_ok_iff _).mpr ⟨r, hrmem2, hrp⟩

/-! ### Invariant preservation -/

theorem storeInv_append_primary {st : Database} (hInv : StoreInv st)
    (e p : Option String) : StoreInv (createContact st e p none Precedence.primary).2 := by
  obtain ⟨hnd, hlt, hdel, hpri, hsec⟩ := hInv
  refine ⟨?_, ?_, ?_, ?_, ?_⟩
  · rw [createContact]
    dsimp only
    rw [List.map_append]
    rw [List.nodup_append]
    refine ⟨hnd, by simp, ?_⟩
    intro x hx
    simp only [List.map_cons, List.map_nil, List.mem_cons, List.not_mem_nil, or_false]
    obtain ⟨c, hcm, rfl⟩ := List.mem_map.mp hx
    intro h
    exact absurd (h ▸ hlt c hcm) (lt_irrefl _)
  · intro c hcm
    rcases List.mem_append.mp hcm with h | h
    · exact Nat.lt_succ_of_lt (hlt c h)
    · rcases List.mem_cons.mp h with rfl | h
      · exact Nat.lt_succ_self _
      · simp at h
  · intro c hcm
    rcases List.mem_append.mp hcm with h | h
    · exact hdel c h
    · rcases List.mem_cons.mp h with rfl | h
      · rfl
      · simp at h
  · intro c hcm hp
    rcases List.mem_append.mp hcm with h | h
    · exact hpri c h hp
    · rcases List.mem_cons.mp h with rfl | h
      · rfl
      · simp at h
  · intro c hcm hs
    rcases List.mem_append.mp hcm with h | h
    · obtain ⟨q, hq, hqp, hql⟩ := hsec c h hs
      exact ⟨q, List.mem_append_left _ hq, hqp, hql⟩
    · rcases List.mem_cons.mp h with rfl | h
      · cases hs
      · simp at h

theorem storeInv_append_secondary {st : Database} (hInv : StoreInv st) {pid : Nat}
    (hroot : ∃ q, q ∈ st.contacts ∧ q.id = pid ∧ q.linkPrecedence = Precedence.primary)
    (e p : Option String) : StoreInv (createContact st e p (some pid) Precedence.secondary).2 := by
  obtain ⟨hnd, hlt, hdel, hpri, hsec⟩ := hInv
  refine ⟨?_, ?_, ?_, ?_, ?_⟩
  · rw [createContact]
    dsimp only
    rw [List.map_append, List.nodup_append]
    refine ⟨hnd, by simp, ?_⟩
    intro x hx
    simp only [List.map_cons, List.map_nil, List.mem_cons, List.not_mem_nil, or_false]
    obtain ⟨c, hcm, rfl⟩ := List.mem_map.mp hx
    intro h
    exact absurd (h ▸ hlt c hcm) (lt_irrefl _)
  · intro c hcm
    rcases List.mem_append.mp hcm with h | h
    · exact Nat.lt_succ_of_lt (hlt c h)
    · rcases List.mem_cons.mp h with rfl | h
      · exact Nat.lt_succ_self _
      · simp at h
  · intro c hcm
    rcases List.mem_append.mp hcm with h | h
    · exact hdel c h
    · rcases List.mem_cons.mp h with rfl | h
      · rfl
      · simp at h
  · intro c hcm hp
    rcases List.mem_append.mp hcm with h | h
    · exact hpri c h hp
    · rcases List.mem_cons.mp h with rfl | h
      · cases hp
      · simp at h
  · intro c hcm hs
    rcases List.mem_append.mp hcm with h | h
    · obtain ⟨q, hq, hqp, hql⟩ := hsec c h hs
      exact ⟨q, List.mem_append_left _ hq, hqp, hql⟩
    · rcases List.mem_cons.mp h with rfl | h
      · obtain ⟨q, hq, hqid, hqp⟩ := hroot
        exact ⟨q, List.mem_append_left _ hq, hqp, by rw [hqid]⟩
      · simp at h

theorem mergeUpdate_fix {st : Database} {pids : List Nat} {r : Contact}
    (hrp : r.linkPrecedence = Precedence.primary) :
    mergeUpdate st pids r.id r = r := by
  rw [mergeUpdate, if_neg (by rintro ⟨-, -, hx⟩; exact hx rfl),
    if_neg (by rintro ⟨hs, -⟩; rw [hrp] at hs; cases hs)]

theorem storeInv_merged {st : Database} (hInv : StoreInv st) (pids : List Nat) {r : Contact}
    (hrs : r ∈ st.contacts) (hrp : r.linkPrecedence = Precedence.primary) :
    StoreInv { contacts := st.contacts.map (mergeUpdate st pids r.id),
               nextId := st.nextId, now := st.now } := by
  obtain ⟨hnd, hlt, hdel, hpri, hsec⟩ := hInv
  have hids : (st.contacts.map (mergeUpdate st pids r.id)).map (fun c => c.id) =
      st.contacts.map (fun c => c.id) := by
    rw [List.map_map]
    exact List.map_congr_left fun c _ => mergeUpdate_id st pids r.id c
  refine ⟨?_, ?_, ?_, ?_, ?_⟩
  · rw [hids]; exact hnd
  · intro c hcm
    obtain ⟨d, hdm, rfl⟩ := List.mem_map.mp hcm
    rw [mergeUpdate_id]
    exact hlt d hdm
  · intro c hcm
    obtain ⟨d, hdm, rfl⟩ := List.mem_map.mp hcm
    rw [(mergeUpdate_fields st pids r.id d).2.2.2.2]
    exact hdel d hdm
  · intro c hcm hp
    obtain ⟨d, hdm, rfl⟩ := List.mem_map.mp hcm
    by_cases h1 : d.linkPrecedence = Precedence.primary ∧ d.id ∈ pids ∧ d.id ≠ r.id
    · rw [mergeUpdate, if_pos h1] at hp
      cases hp
    · by_cases h2 : d.linkPrecedence = Precedence.secondary ∧ d.linkedId ≠ some r.id ∧
          ∃ pid, pid ∈ pids ∧ d.linkedId = some pid
      · rw [mergeUpdate, if_neg h1, if_pos h2] at hp
        dsimp only at hp
        rw [h2.1] at hp
        cases hp
      · rw [mergeUpdate, if_neg h1, if_neg h2] at hp ⊢
        exact hpri d hdm hp
  · intro c hcm hs
    obtain ⟨d, hdm, rfl⟩ := List.mem_map.mp hcm
    have hrmem : r ∈ st.contacts.map (mergeUpdate st pids r.id) :=
      List.mem_map.mpr ⟨r, hrs, mergeUpdate_fix hrp⟩
    by_cases h1 : d.linkPrecedence = Precedence.primary ∧ d.id ∈ pids ∧ d.id ≠ r.id
    · refine ⟨r, hrmem, hrp, ?_⟩
      rw [mergeUpdate, if_pos h1]
    · by_cases h2 : d.linkPrecedence = Precedence.secondary ∧ d.linkedId ≠ some r.id ∧
          ∃ pid, pid ∈ pids ∧ d.linkedId = some pid
      · refine ⟨r, hrmem, hrp, ?_⟩
        rw [mergeUpdate, if_neg h1, if_pos h2]
      · rw [mergeUpdate, if_neg h1, if_neg h2] at hs ⊢
        obtain ⟨q, hq, hqp, hql⟩ := hsec d hdm hs
        have hqfix : mergeUpdate st pids r.id q = q := by
          by_cases hq1 : q.linkPrecedence = Precedence.primary ∧ q.id ∈ pids ∧ q.id ≠ r.id
          · exfalso
            apply h2
            refine ⟨hs, ?_, q.id, hq1.2.1, hql⟩
            intro hcon
            rw [hcon] at hql
            exact hq1.2.2 (Option.some_inj.mp hql.symm)
          · rw [mergeUpdate, if_neg hq1,
              if_neg (by rintro ⟨hqs, -⟩; rw [hqp] at hqs; cases hqs)]
        exact ⟨q, List.mem_map.mpr ⟨q, hq, hqfix⟩, hqp, hql⟩

theorem storeInv_identify (st : Database) (req : IdentifyRequest) (hInv : StoreInv st) :
    StoreInv (identify st req).1 := by
  by_cases hc : candidatesOf st req = []
  · rw [identify_no_match hc]
    exact storeInv_append_primary hInv _ _
  · cases hg : governingIds st req with
    | nil =>
      rw [identify_err hc hg]
      exact hInv
    | cons a t =>
      cases t with
      | nil =>
        rw [identify_single hc hg]
        by_cases hnn : needsNewSecondaryContact (findAllLinkedContacts st a)
            req.email req.phoneNumber = true
        · rw [if_pos hnn]
          have ha : a ∈ governingIds st req := by rw [hg]; simp
          obtain ⟨q, hq, hqid, hqp⟩ := governing_root hInv ha
          exact storeInv_append_secondary hInv ⟨q, hq, hqid, hqp⟩ _ _
        · rw [if_neg hnn]
          exact hInv
      | cons b t' =>
        rw [identify_merge hc hg]
        obtain ⟨r, hfm, hrs, hrp, hrid, hstore, hok⟩ :=
          mergePrimaryContacts_spec st (a :: b :: t') req.email req.phoneNumber hInv
            (fun pid hpid => governing_root hInv (by rw [hg]; exact hpid)) (by simp)
        rw [hstore]
        by_cases hnn : needsNewSecondaryContact
            (((a :: b :: t').map (findAllLinkedContacts st)).flatten)
            req.email req.phoneNumber = true
        · rw [if_pos hnn, if_pos hnn]
          have hbase := storeInv_merged hInv (a :: b :: t') hrs hrp
          have hrootM : ∃ q, q ∈ st.contacts.map (mergeUpdate st (a :: b :: t') r.id) ∧
              q.id = r.id ∧ q.linkPrecedence = Precedence.primary :=
            ⟨r, List.mem_map.mpr ⟨r, hrs, mergeUpdate_fix hrp⟩, rfl, hrp⟩
          exact storeInv_append_secondary hbase hrootM (orNull req.email) (orNull req.phoneNumber)
        · rw [if_neg hnn, if_neg hnn]
          have := storeInv_merged hInv (a :: b :: t') hrs hrp
          simpa [List.append_nil] using this

theorem filter_length_le_one {l : List Contact} (hn : (l.map fun c => c.id).Nodup)
    {p : Contact → Bool} (pid : Nat) (hp : ∀ c ∈ l, p c = true → c.id = pid) :
    (l.filter p).length ≤ 1 := by
  induction l with
  | nil => simp
  | cons c cs ih =>
    have hn' : (cs.map fun c => c.id).Nodup := (List.nodup_cons.mp (by simpa using hn)).2
    have hcn : c.id ∉ cs.map fun c => c.id := (List.nodup_cons.mp (by simpa using hn)).1
    cases hpc : p c with
    | true =>
      have hnil : cs.filter p = [] := by
        by_contra hne
        obtain ⟨d, hd⟩ := List.exists_mem_of_ne_nil _ hne
        have hdm := List.mem_filter.mp hd
        have hdid : d.id = pid := hp d (List.mem_cons_of_mem _ hdm.1) hdm.2
        have hcid : c.id = pid := hp c (List.mem_cons_self _ _) hpc
        exact hcn (List.mem_map.mpr ⟨d, hdm.1, by rw [hdid, hcid]⟩)
      rw [List.filter_cons_of_pos hpc, hnil]
      simp
    | false =>
      rw [List.filter_cons_of_neg (by simp [hpc])]
      exact ih hn' fun d hd hpd => hp d (List.mem_cons_of_mem _ hd) hpd

theorem depthOneForest_of_storeInv {st : Database} (hInv : StoreInv st) : DepthOneForest st := by
  obtain ⟨hnd, hlt, hdel, hpri, hsec⟩ := hInv
  refine ⟨hsec, ?_⟩
  intro pid
  have hperm : ((findAllLinkedContacts st pid).filter fun c =>
      decide (c.linkPrecedence = Precedence.primary)).length =
      (((st.contacts.filter fun c =>
        decide (c.deletedAt = none ∧ (c.id = pid ∨ c.linkedId = some pid))).filter fun c =>
          decide (c.linkPrecedence = Precedence.primary)).length) := by
    exact ((sortByCreatedAt_perm _).filter _).length_eq
  rw [findAllLinkedContacts] at hperm ⊢
  rw [hperm]
  have hsub : ((st.contacts.filter fun c =>
      decide (c.deletedAt = none ∧ (c.id = pid ∨ c.linkedId = some pid))).map
        fun c => c.id).Nodup :=
    List.Nodup.sublist (List.Sublist.map _ (List.filter_sublist _)) hnd
  refine filter_length_le_one hsub pid ?_
  intro c hcm hpc
  have hcl := List.mem_filter.mp hcm
  simp only [decide_eq_true_eq] at hcl hpc
  have hlid : c.linkedId = none := hpri c hcl.1 hpc
  rcases hcl.2.2 with h | h
  · exact h
  · rw [hlid] at h
    cases h

/-! ### The membership an observation resolves to, per branch -/

theorem fullMembership_single {st : Database} {req : IdentifyRequest} {pid : Nat}
    (hg : governingIds st req = [pid]) :
    fullMembership st req = findAllLinkedContacts st pid := by
  rw [fullMembership, hg]
  simp

theorem fullMembership_eq {st : Database} {req : IdentifyRequest} {l : List Nat}
    (hg : governingIds st req = l) :
    fullMembership st req = (l.map (findAllLinkedContacts st)).flatten := by
  rw [fullMembership, hg]

theorem find?_id_append_new (L : List Contact) (n : Contact) (nid : Nat) (hn : n.id = nid)
    (h : ∀ c ∈ L, c.id ≠ nid) :
    (L ++ [n]).find? (fun c => decide (c.id = nid)) = some n := by
  induction L with
  | nil => simp [List.find?, hn]
  | cons c cs ih =>
    rw [List.cons_append, List.find?_cons]
    have hdec : decide (c.id = nid) = false :=
      decide_eq_false (h c (List.mem_cons_self _ _))
    rw [hdec]
    exact ih fun d hd => h d (List.mem_cons_of_mem _ hd)

theorem identify_create_spec (st : Database) (req : IdentifyRequest) (hInv : StoreInv st)
    (hc : candidatesOf st req ≠ []) :
    ∃ q, q ∈ st.contacts ∧ q.linkPrecedence = Precedence.primary ∧
      q.id ∈ governingIds st req ∧
      (∀ pid ∈ governingIds st req, ∀ q', q' ∈ st.contacts → q'.id = pid →
        q'.linkPrecedence = Precedence.primary → q.createdAt ≤ q'.createdAt) ∧
      (needsNewSecondaryContact (fullMembership st req) req.email req.phoneNumber = true →
        (identify st req).1.contacts.map (fun c => c.id) =
          st.contacts.map (fun c => c.id) ++ [st.nextId] ∧
        getById (identify st req).1 st.nextId = some
          { id := st.nextId, email := orNull req.email, phoneNumber := orNull req.phoneNumber,
            linkedId := some q.id, linkPrecedence := Precedence.secondary,
            createdAt := st.now, updatedAt := st.now, deletedAt := none }) ∧
      (needsNewSecondaryContact (fullMembership st req) req.email req.phoneNumber = false →
        (identify st req).1.contacts.map (fun c => c.id) = st.contacts.map fun c => c.id) := by
  cases hg : governingIds st req with
  | nil => exact absurd hg (governingIds_ne_nil hInv hc)
  | cons a t =>
    cases t with
    | nil =>
      have ha : a ∈ governingIds st req := by rw [hg]; simp
      obtain ⟨q, hq, hqid, hqp⟩ := governing_root hInv ha
      have hfm := fullMembership_single hg
      refine ⟨q, hq, hqp, by rw [hqid]; simp, ?_, ?_, ?_⟩
      · intro pid hpid q' hq' hq'id hq'p
        rcases List.mem_cons.mp hpid with rfl | hpid
        · have : q' = q := id_eq_of_mem_of_nodup hInv.1 hq' hq (hq'id.trans hqid.symm)
          rw [this]
        · simp at hpid
      · intro hnn
        rw [hfm] at hnn
        rw [identify_single hc hg, if_pos hnn]
        constructor
        · dsimp only [createContact]
          rw [List.map_append]
          rfl
        · dsimp only [createContact, getById]
          rw [hqid]
          exact find?_id_append_new st.contacts _ st.nextId rfl fun c hcm =>
            Nat.ne_of_lt (hInv.2.1 c hcm)
      · intro hnn
        rw [hfm] at hnn
        rw [identify_single hc hg, if_neg (by rw [hnn]; simp)]
    | cons b t' =>
      obtain ⟨r, hfm, hrs, hrp, hrid, hstore, hok⟩ :=
        mergePrimaryContacts_spec st (a :: b :: t') req.email req.phoneNumber hInv
          (fun pid hpid => governing_root hInv (by rw [hg]; exact hpid)) (by simp)
      have hfmem := fullMembership_eq hg
      have hident : identify st req = mergePrimaryContacts st (a :: b :: t')
          req.email req.phoneNumber := identify_merge hc hg
      have hmin := firstMin_min hfm
      refine ⟨r, hrs, hrp, hrid, ?_, ?_, ?_⟩
      · intro pid hpid q' hq' hq'id hq'p
        exact hmin q' ((mem_mergeRoots hInv _).mpr ⟨hq', hq'p, by rw [hq'id]; exact hpid⟩)
      · intro hnn
        rw [hfmem] at hnn
        rw [hident, hstore, if_pos hnn, if_pos hnn]
        have hids : (st.contacts.map (mergeUpdate st (a :: b :: t') r.id)).map
            (fun c => c.id) = st.contacts.map fun c => c.id := by
          rw [List.map_map]
          exact List.map_congr_left fun c _ => mergeUpdate_id st _ r.id c
        constructor
        · dsimp only
          rw [List.map_append, hids]
          rfl
        · dsimp only [getById]
          exact find?_id_append_new _ _ st.nextId rfl fun c hcm => by
            obtain ⟨d, hdm, rfl⟩ := List.mem_map.mp hcm
            rw [mergeUpdate_id]
            exact Nat.ne_of_lt (hInv.2.1 d hdm)
      · intro hnn
        rw [hfmem] at hnn
        rw [hident, hstore, if_neg (by rw [hnn]; simp)]
        dsimp only
        rw [List.append_nil, List.map_map]
        exact List.map_congr_left fun c _ => mergeUpdate_id st _ r.id c

/-! ### View assembly equals the spec description -/

theorem find?_of_filter_singleton {p : Contact → Bool} {l : List Contact} {x : Contact}
    (h : l.filter p = [x]) : l.find? p = some x := by
  induction l with
  | nil => simp at h
  | cons c cs ih =>
    cases hpc : p c with
    | true =>
      rw [List.filter_cons_of_pos hpc] at h
      have hcx : c = x := by
        have := congrArg List.head? h
        simpa using this
      rw [List.find?_cons, hpc]
      rw [hcx]
    | false =>
      rw [List.filter_cons_of_neg (by simp [hpc])] at h
      rw [List.find?_cons, hpc]
      exact ih h

theorem foldl_pushEmail (l : List Contact) (init : List String) :
    l.foldl (fun acc c =>
        match orNull c.email with
        | some e => pushUnique acc e
        | none => acc) init
      = (l.filterMap fun c => orNull c.email).foldl pushUnique init := by
  induction l generalizing init with
  | nil => rfl
  | cons c cs ih =>
    cases hg : orNull c.email <;> simp [List.filterMap_cons, hg, ih]

theorem foldl_pushPhone (l : List Contact) (init : List String) :
    l.foldl (fun acc c =>
        match orNull c.phoneNumber with
        | some e => pushUnique acc e
        | none => acc) init
      = (l.filterMap fun c => orNull c.phoneNumber).foldl pushUnique init := by
  induction l generalizing init with
  | nil => rfl
  | cons c cs ih =>
    cases hg : orNull c.phoneNumber <;> simp [List.filterMap_cons, hg, ih]

theorem dedupKeepFirst_append (x y : List String) :
    dedupKeepFirst (x ++ y) = y.foldl pushUnique (dedupKeepFirst x) := by
  rw [dedupKeepFirst, dedupKeepFirst, List.foldl_append]

theorem dedupKeepFirst_truthyStr (s : Option String) :
    dedupKeepFirst (truthyStr s) = truthyStr s := by
  cases s with
  | none => rfl
  | some t =>
    rw [truthyStr]
    by_cases ht : t = ""
    · rw [if_pos ht]; rfl
    · rw [if_neg ht]
      simp [dedupKeepFirst, pushUnique]

theorem buildConsolidatedContact_spec (contacts : List Contact) (primary : Contact)
    (hp : contacts.filter (fun c => decide (c.linkPrecedence = Precedence.primary)) = [primary]) :
    buildConsolidatedContact contacts = Except.ok (specConsolidatedView contacts primary) := by
  have hfilter : (sortByCreatedAt contacts).filter
      (fun c => decide (c.linkPrecedence = Precedence.primary)) = [primary] := by
    rw [filter_sortByCreatedAt, hp]
    rfl
  have hfind := find?_of_filter_singleton hfilter
  simp only [buildConsolidatedContact, specConsolidatedView]
  rw [hfind]
  dsimp only
  congr 1
  simp only [ConsolidatedContact.mk.injEq]
  refine ⟨trivial, ?_, ?_, ?_⟩
  · rw [filter_sortByCreatedAt, foldl_pushEmail, dedupKeepFirst_append, dedupKeepFirst_truthyStr]
  · rw [filter_sortByCreatedAt, foldl_pushPhone, dedupKeepFirst_append, dedupKeepFirst_truthyStr]
  · rw [filter_sortByCreatedAt]

/-! ### Exactly when identify fails -/

theorem mergePrimaryContacts_error_iff (st : Database) (pids : List Nat)
    (email phoneNumber : Option String) :
    (∃ err, (mergePrimaryContacts st pids email phoneNumber).2 = Except.error err) ↔
      ∀ c ∈ (pids.map (findAllLinkedContacts st)).flatten,
        c.linkPrecedence ≠ Precedence.primary := by
  simp only [mergePrimaryContacts]
  cases hsort : sortByCreatedAt ((pids.map (findAllLinkedContacts st)).flatten.filter fun c =>
      decide (c.linkPrecedence = Precedence.primary)) with
  | nil =>
    have hnone : ∀ c ∈ (pids.map (findAllLinkedContacts st)).flatten,
        c.linkPrecedence ≠ Precedence.primary := by
      intro c hcm hp
      have hmem : c ∈ sortByCreatedAt ((pids.map (findAllLinkedContacts st)).flatten.filter
          fun c => decide (c.linkPrecedence = Precedence.primary)) :=
        mem_sortByCreatedAt.mpr (List.mem_filter.mpr ⟨hcm, by simp [hp]⟩)
      rw [hsort] at hmem
      simp at hmem
    refine iff_of_true ?_ hnone
    dsimp only
    by_cases hs : ((pids.map (findAllLinkedContacts st)).flatten.filter fun c =>
        decide (c.linkPrecedence = Precedence.secondary)) = []
    · rw [if_pos hs]
      by_cases hnn : needsNewSecondaryContact ((pids.map (findAllLinkedContacts st)).flatten)
          email phoneNumber = true
      · rw [if_pos hnn]
        exact ⟨_, rfl⟩
      · rw [if_neg hnn]
        obtain ⟨e, he⟩ := (buildConsolidatedContact_error_iff _).mpr hnone
        exact ⟨e, he⟩
    · rw [if_neg hs]
      exact ⟨_, rfl⟩
  | cons r rest =>
    have hrmem : r ∈ ((pids.map (findAllLinkedContacts st)).flatten.filter fun c =>
        decide (c.linkPrecedence = Precedence.primary)) := by
      have : r ∈ sortByCreatedAt ((pids.map (findAllLinkedContacts st)).flatten.filter fun c =>
          decide (c.linkPrecedence = Precedence.primary)) := by
        rw [hsort]
        simp
      exact mem_sortByCreatedAt.mp this
    have hrp : r.linkPrecedence = Precedence.primary := by
      simpa using (List.mem_filter.mp hrmem).2
    have hrA : r ∈ (pids.map (findAllLinkedContacts st)).flatten :=
      List.mem_of_mem_filter hrmem
    have hrmem2 : r ∈ (((pids.map (findAllLinkedContacts st)).flatten.map fun q =>
        if q.linkPrecedence = Precedence.primary ∧ q.id ≠ r.id then
          { q with linkedId := some r.id, linkPrecedence := Precedence.secondary }
        else q).map fun q =>
        if q.linkPrecedence = Precedence.secondary ∧ q.linkedId ≠ some r.id then
          { q with linkedId := some r.id }
        else q) := by
      have hg1r : (if r.linkPrecedence = Precedence.primary ∧ r.id ≠ r.id then
          { r with linkedId := some r.id, linkPrecedence := Precedence.secondary }
        else r) = r := by
        rw [if_neg (by rintro ⟨-, hx⟩; exact hx rfl)]
      have hg2r : (if r.linkPrecedence = Precedence.secondary ∧ r.linkedId ≠ some r.id then
          { r with linkedId := some r.id }
        else r) = r := by
        rw [if_neg (by rintro ⟨hx, -⟩; rw [hrp] at hx; cases hx)]
      refine List.mem_map.mpr ⟨_, List.mem_map.mpr ⟨r, hrA, rfl⟩, ?_⟩
      rw [hg1r, hg2r]
    refine iff_of_false ?_ ?_
    · dsimp only
      by_cases hnn : needsNewSecondaryContact (((pids.map
          (findAllLinkedContacts st)).flatten.map fun q =>
          if q.linkPrecedence = Precedence.primary ∧ q.id ≠ r.id then
            { q with linkedId := some r.id, linkPrecedence := Precedence.secondary }
          else q).map fun q =>
          if q.linkPrecedence = Precedence.secondary ∧ q.linkedId ≠ some r.id then
            { q with linkedId := some r.id }
          else q) email phoneNumber = true
      · rw [if_pos hnn]
        rintro ⟨err, herr⟩
        obtain ⟨v, hv⟩ := (buildConsolidatedContact_ok_iff _).mpr
          ⟨r, List.mem_append_left _ hrmem2, hrp⟩
        dsimp only at herr
        rw [hv] at herr
        cases herr
      · rw [if_neg hnn]
        rintro ⟨err, herr⟩
        obtain ⟨v, hv⟩ := (buildConsolidatedContact_ok_iff _).mpr ⟨r, hrmem2, hrp⟩
        dsimp only at herr
        rw [hv] at herr
        cases herr
    · intro h
      exact h r hrA hrp

theorem governingIds_of_no_candidates {st : Database} {req : IdentifyRequest}
    (hc : candidatesOf st req = []) : governingIds st req = [] := by
  rw [governingIds, hc]
  rfl

theorem identify_error_iff (st : Database) (req : IdentifyRequest) :
    (∃ e, (identify st req).2 = Except.error e) ↔
      (candidatesOf st req ≠ [] ∧ governingIds st req = []) ∨
      (governingIds st req ≠ [] ∧ ∀ c ∈ fullMembership st req,
        c.linkPrecedence ≠ Precedence.primary) := by
  by_cases hc : candidatesOf st req = []
  · refine iff_of_false ?_ ?_
    · rw [identify_no_match hc]
      rintro ⟨e, he⟩
      obtain ⟨v, hv⟩ := (buildConsolidatedContact_ok_iff
          [(createContact st (orNull req.email) (orNull req.phoneNumber) none
            Precedence.primary).1]).mpr
        ⟨(createContact st (orNull req.email) (orNull req.phoneNumber) none
            Precedence.primary).1, List.mem_cons_self _ _, by rw [createContact]⟩
      dsimp only at he
      rw [hv] at he
      cases he
    · rintro (⟨hne, -⟩ | ⟨hgne, -⟩)
      · exact hne hc
      · exact hgne (governingIds_of_no_candidates hc)
  · cases hg : governingIds st req with
    | nil =>
      rw [identify_err hc hg]
      exact iff_of_true ⟨_, rfl⟩ (Or.inl ⟨hc, rfl⟩)
    | cons a t =>
      have hfm := fullMembership_eq hg
      cases t with
      | nil =>
        rw [identify_single hc hg]
        have hmem : fullMembership st req = findAllLinkedContacts st a :=
          fullMembership_single hg
        by_cases hnn : needsNewSecondaryContact (findAllLinkedContacts st a)
            req.email req.phoneNumber = true
        · rw [if_pos hnn]
          dsimp only
          rw [buildConsolidatedContact_error_iff]
          constructor
          · intro h
            refine Or.inr ⟨by simp, ?_⟩
            rw [hmem]
            intro c hcm
            exact h c (List.mem_append_left _ hcm)
          · rintro (⟨-, h⟩ | ⟨-, h⟩)
            · cases h
            · rw [hmem] at h
              intro c hcm
              rcases List.mem_append.mp hcm with hcm | hcm
              · exact h c hcm
              · rcases List.mem_cons.mp hcm with rfl | hcm
                · intro hp
                  cases hp
                · simp at hcm
        · rw [if_neg hnn]
          dsimp only
          rw [buildConsolidatedContact_error_iff]
          constructor
          · intro h
            refine Or.inr ⟨by simp, ?_⟩
            rw [hmem]
            exact h
          · rintro (⟨-, h⟩ | ⟨-, h⟩)
            · cases h
            · rw [hmem] at h
              exact h
      | cons b t' =>
        rw [identify_merge hc hg]
        rw [mergePrimaryContacts_error_iff]
        constructor
        · intro h
          refine Or.inr ⟨by simp, ?_⟩
          rw [hfm]
          exact h
        · rintro (⟨-, h⟩ | ⟨-, h⟩)
          · cases h
          · rw [hfm] at h
            exact h

theorem find?_id_of_mem_eq {l : List Contact} (hn : (l.map fun c => c.id).Nodup)
    {c : Contact} (hc : c ∈ l) {cid : Nat} (hid : c.id = cid) :
    l.find? (fun d => decide (d.id = cid)) = some c := by
  subst hid
  exact find?_id_of_mem hn hc

theorem identify_merge_spec (st : Database) (req : IdentifyRequest) (hInv : StoreInv st)
    (hg2 : 2 ≤ (governingIds st req).length) :
    ∃ r, firstMin (rootsList st req) = some r ∧ r ∈ st.contacts ∧
      r.linkPrecedence = Precedence.primary ∧ r.id ∈ governingIds st req ∧
      (∀ c ∈ st.contacts, getById (identify st req).1 c.id =
        some (mergeUpdate st (governingIds st req) r.id c)) ∧
      ∃ v, (identify st req).2 = Except.ok v := by
  have hc : candidatesOf st req ≠ [] := by
    intro h
    rw [governingIds_of_no_candidates h] at hg2
    simp at hg2
  cases hg : governingIds st req with
  | nil =>
    rw [hg] at hg2
    simp at hg2
  | cons a t =>
    cases t with
    | nil =>
      rw [hg] at hg2
      simp at hg2
    | cons b t' =>
      obtain ⟨r, hfm, hrs, hrp, hrid, hstore, hok⟩ :=
        mergePrimaryContacts_spec st (a :: b :: t') req.email req.phoneNumber hInv
          (fun pid hpid => governing_root hInv (by rw [hg]; exact hpid)) (by simp)
      have hident := identify_merge hc hg
      have hroots_eq : rootsList st req =
          ((a :: b :: t').map (findAllLinkedContacts st)).flatten.filter fun c =>
            decide (c.linkPrecedence = Precedence.primary) := by
        rw [rootsList, fullMembership_eq hg]
      refine ⟨r, by rw [hroots_eq]; exact hfm, hrs, hrp, hrid, ?_, ?_⟩
      · intro c hcm
        rw [hident, hstore]
        dsimp only [getById]
        apply find?_append_of_some
        refine find?_id_of_mem_eq ?_ (List.mem_map.mpr ⟨c, hcm, rfl⟩)
          (mergeUpdate_id _ _ _ _)
        rw [List.map_map]
        have heq : st.contacts.map ((fun c => c.id) ∘ mergeUpdate st (a :: b :: t') r.id) =
            st.contacts.map fun c => c.id :=
          List.map_congr_left fun d _ => mergeUpdate_id _ _ _ _
        rw [heq]
        exact hInv.1
      · rw [hident]
        exact hok

theorem truthyStr_orNull (s : Option String) : truthyStr (orNull s) = (orNull s).toList := by
  cases s with
  | none => rfl
  | some t =>
    by_cases ht : t = "" <;> simp [orNull, truthyStr, ht]

theorem build_singleton_primary (c : Contact) (hp : c.linkPrecedence = Precedence.primary) :
    buildConsolidatedContact [c] = Except.ok
      { primaryContactId := c.id, emails := truthyStr c.email,
        phoneNumbers := truthyStr c.phoneNumber, secondaryContactIds := [] } := by
  simp only [buildConsolidatedContact]
  have hsort : sortByCreatedAt [c] = [c] := rfl
  rw [hsort, List.find?_cons,
    show decide (c.linkPrecedence = Precedence.primary) = true by simp [hp]]
  rw [List.filter_cons_of_neg (by simp [hp])]
  rfl

/-! ## The claims -/

/-- C1: whenever the governing-primary-id set has at least two members,
identify merges the identities: an earliest-created primary `r` among all
primary records across the fetched groups survives unchanged (still primary,
`linkedId` unset), every other primary across the groups is rewritten in the
store to precedence secondary with `linkedId = r.id`, and every secondary
record across the groups ends with `linkedId = r.id`, leaving no two-level
chains; the operation returns a consolidated view. -/
theorem identify_merges_identities (st : Database) (req : IdentifyRequest)
    (hInv : StoreInv st) (hg2 : 2 ≤ (governingIds st req).length) :
    ∃ r, r ∈ st.contacts ∧ r.linkPrecedence = Precedence.primary ∧
      r.id ∈ governingIds st req ∧
      (∀ p ∈ rootsList st req, r.createdAt ≤ p.createdAt) ∧
      (∃ r', getById (identify st req).1 r.id = some r' ∧
        r'.linkPrecedence = Precedence.primary ∧ r'.linkedId = none) ∧
      (∀ p ∈ rootsList st req, p.id ≠ r.id →
        getById (identify st req).1 p.id = some
          { p with linkedId := some r.id, linkPrecedence := Precedence.secondary,
                   updatedAt := st.now }) ∧
      (∀ s ∈ fullMembership st req, s.linkPrecedence = Precedence.secondary →
        ∃ s', getById (identify st req).1 s.id = some s' ∧
          s'.linkPrecedence = Precedence.secondary ∧ s'.linkedId = some r.id) ∧
      ∃ v, (identify st req).2 = Except.ok v := by
  obtain ⟨r, hfm, hrs, hrp, hrid, hget, hok⟩ := identify_merge_spec st req hInv hg2
  have hroots : ∀ pid ∈ governingIds st req, ∃ p, p ∈ st.contacts ∧ p.id = pid ∧
      p.linkPrecedence = Precedence.primary :=
    fun pid hpid => governing_root hInv hpid
  have hmemroots : ∀ p : Contact, p ∈ rootsList st req ↔
      p ∈ st.contacts ∧ p.linkPrecedence = Precedence.primary ∧
        p.id ∈ governingIds st req := by
    intro p
    rw [rootsList, fullMembership]
    exact mem_mergeRoots hInv _
  refine ⟨r, hrs, hrp, hrid, firstMin_min hfm, ?_, ?_, ?_, hok⟩
  · refine ⟨r, ?_, hrp, hInv.2.2.2.1 r hrs hrp⟩
    rw [hget r hrs, mergeUpdate_fix hrp]
  · intro p hp hpneq
    obtain ⟨hps, hpp, hpid⟩ := (hmemroots p).mp hp
    rw [hget p hps, mergeUpdate, if_pos ⟨hpp, hpid, hpneq⟩]
  · intro s hs hssec
    have hss : s ∈ st.contacts := by
      rw [fullMembership] at hs
      exact ((mem_mergeAll hInv _).mp hs).1
    obtain ⟨pid, hpid, hlink⟩ := (mem_mergeAll_secondary hInv hroots hss hssec).mp
      (by rw [fullMembership] at hs; exact hs)
    have hc1 : ¬ (s.linkPrecedence = Precedence.primary ∧ s.id ∈ governingIds st req ∧
        s.id ≠ r.id) := by
      rintro ⟨hp, -, -⟩
      rw [hssec] at hp
      cases hp
    by_cases hcase : s.linkedId = some r.id
    · refine ⟨s, ?_, hssec, hcase⟩
      rw [hget s hss, mergeUpdate, if_neg hc1,
        if_neg (by rintro ⟨-, hne, -⟩; exact hne hcase)]
    · refine ⟨{ s with linkedId := some r.id, updatedAt := st.now }, ?_, hssec, rfl⟩
      rw [hget s hss, mergeUpdate, if_neg hc1, if_pos ⟨hssec, hcase, pid, hpid, hlink⟩]

/-- C2: against a matched identity, a new secondary record is created if and
only if no member of the full membership carries exactly the observation's
(email, phone) pair and the observation supplies an email or phone value
absent from the whole membership; when created it is the single appended
record, with precedence secondary and `linkedId` the id of the
earliest-created governing primary (the governing primary in a
single-identity match, the surviving primary in a merge). -/
theorem identify_new_secondary_iff (st : Database) (req : IdentifyRequest)
    (hInv : StoreInv st) (hc : candidatesOf st req ≠ []) :
    ((identify st req).1.contacts.map (fun c => c.id) =
        st.contacts.map (fun c => c.id) ++ [st.nextId] ↔
      NewInfoNeeded (fullMembership st req) req.email req.phoneNumber) ∧
    (¬ NewInfoNeeded (fullMembership st req) req.email req.phoneNumber →
      (identify st req).1.contacts.map (fun c => c.id) =
        st.contacts.map fun c => c.id) ∧
    (NewInfoNeeded (fullMembership st req) req.email req.phoneNumber →
      ∃ q, q ∈ st.contacts ∧ q.linkPrecedence = Precedence.primary ∧
        q.id ∈ governingIds st req ∧
        (∀ pid ∈ governingIds st req, ∀ q', q' ∈ st.contacts → q'.id = pid →
          q'.linkPrecedence = Precedence.primary → q.createdAt ≤ q'.createdAt) ∧
        getById (identify st req).1 st.nextId = some
          { id := st.nextId, email := orNull req.email,
            phoneNumber := orNull req.phoneNumber, linkedId := some q.id,
            linkPrecedence := Precedence.secondary, createdAt := st.now,
            updatedAt := st.now, deletedAt := none }) := by
  obtain ⟨q, hq, hqp, hqg, hqmin, hcreate, hnocreate⟩ := identify_create_spec st req hInv hc
  refine ⟨⟨?_, ?_⟩, ?_, ?_⟩
  · intro hids
    cases hb : needsNewSecondaryContact (fullMembership st req) req.email req.phoneNumber with
    | true => exact (needsNewSecondaryContact_iff _ _ _).mp hb
    | false =>
      exfalso
      have h0 := hnocreate hb
      rw [h0] at hids
      have hlen := congrArg List.length hids
      simp at hlen
  · intro hinfo
    exact (hcreate ((needsNewSecondaryContact_iff _ _ _).mpr hinfo)).1
  · intro hninfo
    cases hb : needsNewSecondaryContact (fullMembership st req) req.email req.phoneNumber with
    | true => exact absurd ((needsNewSecondaryContact_iff _ _ _).mp hb) hninfo
    | false => exact hnocreate hb
  · intro hinfo
    obtain ⟨hids, hget⟩ := hcreate ((needsNewSecondaryContact_iff _ _ _).mpr hinfo)
    exact ⟨q, hq, hqp, hqg, hqmin, hget⟩

/-- C3: identify preserves the store invariant; in particular the store
afterwards is a depth-1 forest — every secondary's `linkedId` is the id of a
primary record, and any consolidated identity contains at most one primary
record. -/
theorem identify_depth_one_forest (st : Database) (req : IdentifyRequest)
    (hInv : StoreInv st) :
    StoreInv (identify st req).1 ∧ DepthOneForest (identify st req).1 :=
  ⟨storeInv_identify st req hInv,
    depthOneForest_of_storeInv (storeInv_identify st req hInv)⟩

/-- C4: for a full membership containing exactly one primary record, view
assembly returns exactly the spec-described view: the primary's id; unique
emails with the primary's first and then secondary emails in ascending
createdAt order, first occurrence winning; phones likewise; and the
secondary ids in ascending createdAt order. -/
theorem view_assembly_spec (contacts : List Contact) (primary : Contact)
    (hp : contacts.filter (fun c => decide (c.linkPrecedence = Precedence.primary))
      = [primary]) :
    buildConsolidatedContact contacts = Except.ok (specConsolidatedView contacts primary) :=
  buildConsolidatedContact_spec contacts primary hp

/-- C5: when no stored record shares the observation's email or phone,
identify appends exactly one new primary record (fresh id, the observation's
normalised email and phone, `linkedId` unset) and returns the consolidated
view of that record alone. -/
theorem identify_no_match_spec (st : Database) (req : IdentifyRequest)
    (h : candidatesOf st req = []) :
    identify st req =
      ({ contacts := st.contacts ++
          [{ id := st.nextId, email := orNull req.email,
             phoneNumber := orNull req.phoneNumber, linkedId := none,
             linkPrecedence := Precedence.primary, createdAt := st.now,
             updatedAt := st.now, deletedAt := none }],
         nextId := st.nextId + 1, now := st.now },
        Except.ok
          { primaryContactId := st.nextId
            emails := (orNull req.email).toList
            phoneNumbers := (orNull req.phoneNumber).toList
            secondaryContactIds := [] }) := by
  rw [identify_no_match h]
  rw [build_singleton_primary _ (by rw [createContact])]
  rw [createContact]
  dsimp only
  rw [truthyStr_orNull, truthyStr_orNull]

/-- C6: identify is idempotent on exact pairs — if some stored member of the
matched identity already carries exactly the observation's (email, phone)
pair, no record is created: the stored ids are unchanged. -/
theorem identify_exact_pair_no_create (st : Database) (req : IdentifyRequest)
    (hInv : StoreInv st) (hc : candidatesOf st req ≠ [])
    (hdup : ∃ c, c ∈ st.contacts ∧ c.email = orNull req.email ∧
      c.phoneNumber = orNull req.phoneNumber) :
    (identify st req).1.contacts.map (fun c => c.id) = st.contacts.map fun c => c.id := by
  obtain ⟨c, hcs, hce, hcp⟩ := hdup
  have hcand : c ∈ candidatesOf st req := by
    rw [mem_candidatesOf]
    refine ⟨hcs, hInv.2.2.1 c hcs, ?_⟩
    cases he : orNull req.email with
    | some e => exact Or.inl ⟨e, rfl, by rw [hce, he]⟩
    | none =>
      cases hp : orNull req.phoneNumber with
      | some p => exact Or.inr ⟨p, rfl, by rw [hcp, hp]⟩
      | none =>
        exfalso
        apply hc
        simp only [candidatesOf, findContactsByEmailOrPhone, he, hp]
  have hmem : c ∈ fullMembership st req := by
    rw [fullMembership, List.mem_flatten]
    cases hprec : c.linkPrecedence with
    | primary =>
      have hgm : c.id ∈ governingIds st req :=
        mem_governingIds.mpr (Or.inl ⟨c, hcand, hprec, rfl⟩)
      exact ⟨findAllLinkedContacts st c.id, List.mem_map_of_mem _ hgm,
        mem_findAllLinkedContacts.mpr ⟨hcs, hInv.2.2.1 c hcs, Or.inl rfl⟩⟩
    | secondary =>
      obtain ⟨q, hqm, hqp, hql⟩ := hInv.2.2.2.2 c hcs hprec
      have hgm : q.id ∈ governingIds st req :=
        mem_governingIds.mpr (Or.inr ⟨c, hcand, hprec, hql⟩)
      exact ⟨findAllLinkedContacts st q.id, List.mem_map_of_mem _ hgm,
        mem_findAllLinkedContacts.mpr ⟨hcs, hInv.2.2.1 c hcs, Or.inr hql⟩⟩
  obtain ⟨q, hq, hqp, hqg, hqmin, hcreate, hnocreate⟩ := identify_create_spec st req hInv hc
  refine hnocreate ?_
  cases hb : needsNewSecondaryContact (fullMembership st req) req.email req.phoneNumber with
  | true =>
    exfalso
    exact ((needsNewSecondaryContact_iff _ _ _).mp hb).1 ⟨c, hmem, hce, hcp⟩
  | false => rfl

/-- C8: identify fails with an error exactly in the internal-consistency
cases — when the candidate set is non-empty but the governing-primary-id set
is empty, or when the membership fetched for the governing primaries holds
no record with precedence primary (so view assembly cannot find one). -/
theorem identify_fails_exactly_on_corruption (st : Database) (req : IdentifyRequest) :
    (∃ e, (identify st req).2 = Except.error e) ↔
      (candidatesOf st req ≠ [] ∧ governingIds st req = []) ∨
      (governingIds st req ≠ [] ∧ ∀ c ∈ fullMembership st req,
        c.linkPrecedence ≠ Precedence.primary) :=
  identify_error_iff st req

/-- C10: when the observation matches exactly one existing identity and the
new-information test fails, identify issues no create and no update: it
returns the store completely unchanged (every field of every record,
updatedAt included) together with the view of the fetched membership. -/
theorem identify_pure_read_when_no_new_info (st : Database) (req : IdentifyRequest)
    (pid : Nat) (hc : candidatesOf st req ≠ []) (hg : governingIds st req = [pid])
    (hno : needsNewSecondaryContact (findAllLinkedContacts st pid)
      req.email req.phoneNumber = false) :
    identify st req = (st, buildConsolidatedContact (findAllLinkedContacts st pid)) := by
  rw [identify_single hc hg, if_neg (by rw [hno]; simp)]

/-- C7 (amended): during a merge the surviving primary is the first record,
in the order the primaries appear across the fetched groups, attaining the
earliest createdAt — every primary fetched before it has a strictly greater
createdAt, so equal timestamps are resolved by fetch order (which follows
the order the Store returned the matching rows), not by smallest id. -/
theorem merge_tie_broken_by_fetch_order (st : Database) (req : IdentifyRequest)
    (hInv : StoreInv st) (hg2 : 2 ≤ (governingIds st req).length) :
    ∃ r l₁ l₂, rootsList st req = l₁ ++ r :: l₂ ∧
      (∀ x ∈ l₁, r.createdAt < x.createdAt) ∧
      (∀ x ∈ rootsList st req, r.createdAt ≤ x.createdAt) ∧
      (∃ r', getById (identify st req).1 r.id = some r' ∧
        r'.linkPrecedence = Precedence.primary) ∧
      (∀ p ∈ rootsList st req, p.id ≠ r.id →
        getById (identify st req).1 p.id = some
          { p with linkedId := some r.id, linkPrecedence := Precedence.secondary,
                   updatedAt := st.now }) := by
  obtain ⟨r, hfm, hrs, hrp, hrid, hget, hok⟩ := identify_merge_spec st req hInv hg2
  obtain ⟨l₁, l₂, hsplit, h₁, h₂⟩ := firstMin_spec hfm
  have hmemroots : ∀ p : Contact, p ∈ rootsList st req ↔
      p ∈ st.contacts ∧ p.linkPrecedence = Precedence.primary ∧
        p.id ∈ governingIds st req := by
    intro p
    rw [rootsList, fullMembership]
    exact mem_mergeRoots hInv _
  refine ⟨r, l₁, l₂, hsplit, h₁, firstMin_min hfm, ?_, ?_⟩
  · refine ⟨r, ?_, hrp⟩
    rw [hget r hrs, mergeUpdate_fix hrp]
  · intro p hp hpneq
    obtain ⟨hps, hpp, hpid⟩ := (hmemroots p).mp hp
    rw [hget p hps, mergeUpdate, if_pos ⟨hpp, hpid, hpneq⟩]

/-- C7 counterexample: in a merge of two primaries sharing the earliest
createdAt, the Store returns ids in the order [2, 1]; the record with id 2
survives while id 1 — the smallest identifier — is demoted to secondary
under id 2, refuting tie-breaking by smallest identifier and showing the
outcome depends on Store return order. -/
theorem merge_tie_smallest_id_refuted :
    StoreInv stC7 ∧ governingIds stC7 reqC7 = [2, 1] ∧
    (∀ c ∈ stC7.contacts, c.createdAt = 5) ∧
    (getById (identify stC7 reqC7).1 1).map (fun c => c.linkPrecedence)
      = some Precedence.secondary ∧
    (getById (identify stC7 reqC7).1 1).map (fun c => c.linkedId) = some (some 2) ∧
    (getById (identify stC7 reqC7).1 2).map (fun c => c.linkPrecedence)
      = some Precedence.primary := by
  decide

/-- C9: identify is not atomic. On `stC9` it first creates a new secondary
record (bringing a new email) and only then fails while assembling the view;
the failed call leaves the newly created record in the store, so its writes
are not rolled back. -/
theorem identify_not_atomic_on_failure :
    (identify stC9 reqC9).2 = Except.error "No primary contact found" ∧
    (identify stC9 reqC9).1 ≠ stC9 ∧
    (identify stC9 reqC9).1.contacts.length = stC9.contacts.length + 1 := by
  decide

/-! ## Witnesses -/

/-- Witness for the C1 merge theorem at the concrete store `stW1`. -/
theorem identify_merges_identities_witness :
    StoreInv stW1 ∧ 2 ≤ (governingIds stW1 reqW1).length ∧
    (∃ r, r ∈ stW1.contacts ∧ r.linkPrecedence = Precedence.primary ∧
      r.id ∈ governingIds stW1 reqW1 ∧
      (∀ p ∈ rootsList stW1 reqW1, r.createdAt ≤ p.createdAt) ∧
      (∃ r', getById (identify stW1 reqW1).1 r.id = some r' ∧
        r'.linkPrecedence = Precedence.primary ∧ r'.linkedId = none) ∧
      (∀ p ∈ rootsList stW1 reqW1, p.id ≠ r.id →
        getById (identify stW1 reqW1).1 p.id = some
          { p with linkedId := some r.id, linkPrecedence := Precedence.secondary,
                   updatedAt := stW1.now }) ∧
      (∀ s ∈ fullMembership stW1 reqW1, s.linkPrecedence = Precedence.secondary →
        ∃ s', getById (identify stW1 reqW1).1 s.id = some s' ∧
          s'.linkPrecedence = Precedence.secondary ∧ s'.linkedId = some r.id) ∧
      ∃ v, (identify stW1 reqW1).2 = Except.ok v) :=
  ⟨by decide, by decide, identify_merges_identities stW1 reqW1 (by decide) (by decide)⟩

/-- Witness for the C2 new-secondary theorem at the concrete store `stW2`. -/
theorem identify_new_secondary_iff_witness :
    StoreInv stW2 ∧ candidatesOf stW2 reqW2 ≠ [] ∧
    (((identify stW2 reqW2).1.contacts.map (fun c => c.id) =
        stW2.contacts.map (fun c => c.id) ++ [stW2.nextId] ↔
      NewInfoNeeded (fullMembership stW2 reqW2) reqW2.email reqW2.phoneNumber) ∧
    (¬ NewInfoNeeded (fullMembership stW2 reqW2) reqW2.email reqW2.phoneNumber →
      (identify stW2 reqW2).1.contacts.map (fun c => c.id) =
        stW2.contacts.map fun c => c.id) ∧
    (NewInfoNeeded (fullMembership stW2 reqW2) reqW2.email reqW2.phoneNumber →
      ∃ q, q ∈ stW2.contacts ∧ q.linkPrecedence = Precedence.primary ∧
        q.id ∈ governingIds stW2 reqW2 ∧
        (∀ pid ∈ governingIds stW2 reqW2, ∀ q', q' ∈ stW2.contacts → q'.id = pid →
          q'.linkPrecedence = Precedence.primary → q.createdAt ≤ q'.createdAt) ∧
        getById (identify stW2 reqW2).1 stW2.nextId = some
          { id := stW2.nextId, email := orNull reqW2.email,
            phoneNumber := orNull reqW2.phoneNumber, linkedId := some q.id,
            linkPrecedence := Precedence.secondary, createdAt := stW2.now,
            updatedAt := stW2.now, deletedAt := none })) :=
  ⟨by decide, by decide, identify_new_secondary_iff stW2 reqW2 (by decide) (by decide)⟩

/-- Witness for the C3 invariant theorem at the concrete store `stW3`. -/
theorem identify_depth_one_forest_witness :
    StoreInv stW3 ∧
    (StoreInv (identify stW3 reqW3).1 ∧ DepthOneForest (identify stW3 reqW3).1) :=
  ⟨by decide, identify_depth_one_forest stW3 reqW3 (by decide)⟩

/-- Witness for the C4 view-assembly theorem at the concrete membership
`contactsW4`. -/
theorem view_assembly_spec_witness :
    contactsW4.filter (fun c => decide (c.linkPrecedence = Precedence.primary)) = [pW4] ∧
    buildConsolidatedContact contactsW4 =
      Except.ok (specConsolidatedView contactsW4 pW4) :=
  ⟨by decide, view_assembly_spec contactsW4 pW4 (by decide)⟩

/-- Witness for the C5 no-match theorem at the empty store `stW5`. -/
theorem identify_no_match_spec_witness :
    candidatesOf stW5 reqW5 = [] ∧
    identify stW5 reqW5 =
      ({ contacts := stW5.contacts ++
          [{ id := stW5.nextId, email := orNull reqW5.email,
             phoneNumber := orNull reqW5.phoneNumber, linkedId := none,
             linkPrecedence := Precedence.primary, createdAt := stW5.now,
             updatedAt := stW5.now, deletedAt := none }],
         nextId := stW5.nextId + 1, now := stW5.now },
        Except.ok
          { primaryContactId := stW5.nextId
            emails := (orNull reqW5.email).toList
            phoneNumbers := (orNull reqW5.phoneNumber).toList
            secondaryContactIds := [] }) :=
  ⟨by decide, identify_no_match_spec stW5 reqW5 (by decide)⟩

/-- Witness for the C6 idempotence theorem at the concrete store `stW6`. -/
theorem identify_exact_pair_no_create_witness :
    StoreInv stW6 ∧ candidatesOf stW6 reqW6 ≠ [] ∧
    (∃ c, c ∈ stW6.contacts ∧ c.email = orNull reqW6.email ∧
      c.phoneNumber = orNull reqW6.phoneNumber) ∧
    (identify stW6 reqW6).1.contacts.map (fun c => c.id) =
      stW6.contacts.map fun c => c.id :=
  ⟨by decide, by decide, by decide,
    identify_exact_pair_no_create stW6 reqW6 (by decide) (by decide) (by decide)⟩

/-- Witness for the amended C7 theorem at the tied store `stC7`. -/
theorem merge_tie_broken_by_fetch_order_witness :
    StoreInv stC7 ∧ 2 ≤ (governingIds stC7 reqC7).length ∧
    (∃ r l₁ l₂, rootsList stC7 reqC7 = l₁ ++ r :: l₂ ∧
      (∀ x ∈ l₁, r.createdAt < x.createdAt) ∧
      (∀ x ∈ rootsList stC7 reqC7, r.createdAt ≤ x.createdAt) ∧
      (∃ r', getById (identify stC7 reqC7).1 r.id = some r' ∧
        r'.linkPrecedence = Precedence.primary) ∧
      (∀ p ∈ rootsList stC7 reqC7, p.id ≠ r.id →
        getById (identify stC7 reqC7).1 p.id = some
          { p with linkedId := some r.id, linkPrecedence := Precedence.secondary,
                   updatedAt := stC7.now })) :=
  ⟨by decide, by decide, merge_tie_broken_by_fetch_order stC7 reqC7 (by decide) (by decide)⟩

/-- Witness for the C10 frame theorem at the concrete store `stW10`. -/
theorem identify_pure_read_when_no_new_info_witness :
    candidatesOf stW10 reqW10 ≠ [] ∧ governingIds stW10 reqW10 = [1] ∧
    needsNewSecondaryContact (findAllLinkedContacts stW10 1)
      reqW10.email reqW10.phoneNumber = false ∧
    identify stW10 reqW10 =
      (stW10, buildConsolidatedContact (findAllLinkedContacts stW10 1)) :=
  ⟨by decide, by decide, by decide,
    identify_pure_read_when_no_new_info stW10 reqW10 1 (by decide) (by decide) (by decide)⟩
